import Mathlib

/-!
Verification model of `aocommon::OverlappingTaskProcessor`
(src/vendor/aocommon/aocommon/overlappingtaskprocessor.h).

The processor owns three instance-wide semaphores:
  * `processing_count_semaphore_` — counting, capacity 2 (`countSem`),
  * `processing_order_semaphore_` — binary, initially 1 (`orderSem`),
  * `lane_process_semaphore_`    — binary, initially 1 (`laneSem`).
A `Process(data_lane, processing_function, log_tag)` invocation creates an
invocation-local `currently_processing_semaphore` of capacity 2 (`localSem`),
acquires the lane semaphore, pulls chunks from the lane in order, and for each
chunk acquires the count, local and order semaphores before emplacing a work
item on the shared task queue; after the lane is drained it releases the lane
semaphore and finally performs two drain acquires on the local semaphore.
Each work item runs the caller's processing function (which, per the
documented contract, releases the order semaphore exactly once while it runs),
then releases the local semaphore and the count semaphore.

We model the documented situation of at most two concurrent `Process`
invocations (A and B) as a small-step transition system with an executable
step function, and prove the ordering / overlap / delivery properties as
invariants and trace properties of that system.  Chunk payloads are modelled
as natural numbers (the payload type is an opaque template parameter in the
source).  A work item whose processing function exits abnormally is modelled
by the `fault` transition: the two releases that follow the call in the work
item body then never execute, matching the C++ control flow.
-/

namespace OverlapProc

/-- Lifecycle of one emplaced work item (one chunk).  `queued` = emplaced on
the task queue, callback not yet started; `runningPre` = callback started,
order semaphore not yet released; `runningPost` = callback released the order
semaphore and is still executing; `returned` = callback returned, the two
trailing releases of the work-item body still pending; `releasedLocal` = the
invocation-local semaphore has been released; `finished` = the count
semaphore has also been released (work item complete).  `faultedPre` /
`faultedPost` = the callback exited abnormally (before / after releasing the
order semaphore), so the trailing releases never run. -/
inductive TaskPhase
  | queued
  | runningPre
  | runningPost
  | returned
  | releasedLocal
  | finished
  | faultedPre
  | faultedPost
  deriving DecidableEq, Repr

/-- One submitted work item: the chunk payload it captured and its phase.
Its position in the invocation's task list is its chunk index. -/
structure TaskState where
  payload : Nat
  phase : TaskPhase
  deriving DecidableEq, Repr

/-- Control state of one `Process` invocation's coordinating thread.
`notStarted` = `Process` not yet called; `acqLane` = blocked on
`lane_process_semaphore_.acquire()`; `reading` = at the top of the
`while (data_lane.read(...))` loop; `acqCount p` / `acqLocal p` / `acqOrder p`
= holding the chunk payload `p` just read, blocked on the corresponding
semaphore acquire inside `QueueChunk`; `drain0` / `drain1` = lane released,
zero / one of the two final drain acquires done; `done` = `Process`
returned. -/
inductive CoordPhase
  | notStarted
  | acqLane
  | reading
  | acqCount (p : Nat)
  | acqLocal (p : Nat)
  | acqOrder (p : Nat)
  | drain0
  | drain1
  | done
  deriving DecidableEq, Repr

/-- State of one `Process` invocation: coordinator phase, chunks not yet read
from its lane, submitted work items (position = chunk index), and the value
of its invocation-local `currently_processing_semaphore`. -/
structure InvState where
  phase : CoordPhase
  remaining : List Nat
  tasks : List TaskState
  localSem : Nat
  deriving DecidableEq, Repr

/-- Name of one of the (at most) two concurrent `Process` invocations. -/
inductive WhichInv
  | A
  | B
  deriving DecidableEq, Repr

/-- Transition labels: coordinator steps and work-item (worker-thread) steps.
`acquireOrder` both decrements the order semaphore and emplaces the work item
(the `Emplace` call is non-blocking and directly follows the acquire).
`fault i` models the callback of work item `i` exiting abnormally. -/
inductive Label
  | invoke (v : WhichInv)
  | acquireLane (v : WhichInv)
  | readChunk (v : WhichInv)
  | laneEmpty (v : WhichInv)
  | acquireCount (v : WhichInv)
  | acquireLocal (v : WhichInv)
  | acquireOrder (v : WhichInv)
  | drainAcquire (v : WhichInv)
  | startTask (v : WhichInv) (i : Nat)
  | signalOrder (v : WhichInv) (i : Nat)
  | returnTask (v : WhichInv) (i : Nat)
  | releaseLocal (v : WhichInv) (i : Nat)
  | releaseCount (v : WhichInv) (i : Nat)
  | fault (v : WhichInv) (i : Nat)
  deriving DecidableEq, Repr

/-- Which invocation a label belongs to. -/
def Label.who : Label → WhichInv
  | .invoke v => v
  | .acquireLane v => v
  | .readChunk v => v
  | .laneEmpty v => v
  | .acquireCount v => v
  | .acquireLocal v => v
  | .acquireOrder v => v
  | .drainAcquire v => v
  | .startTask v _ => v
  | .signalOrder v _ => v
  | .returnTask v _ => v
  | .releaseLocal v _ => v
  | .releaseCount v _ => v
  | .fault v _ => v

/-- Global state: the two invocations plus the three instance-wide
semaphores of the processor. -/
structure SysState where
  invA : InvState
  invB : InvState
  countSem : Nat
  orderSem : Nat
  laneSem : Nat
  deriving DecidableEq, Repr

/-- Select an invocation's state. -/
@[simp] def SysState.get (s : SysState) : WhichInv → InvState
  | .A => s.invA
  | .B => s.invB

/-- Replace an invocation's state. -/
@[simp] def SysState.set (s : SysState) (v : WhichInv) (iv : InvState) : SysState :=
  match v with
  | .A => { s with invA := iv }
  | .B => { s with invB := iv }

/-- Initial state: semaphores at their constructed values (2, 1, 1), both
invocations not yet started, and each lane pre-loaded with its stream of
chunk payloads. -/
def initState (cA cB : List Nat) : SysState where
  invA := { phase := .notStarted, remaining := cA, tasks := [], localSem := 2 }
  invB := { phase := .notStarted, remaining := cB, tasks := [], localSem := 2 }
  countSem := 2
  orderSem := 1
  laneSem := 1

/-- `Process` is called on invocation `v`: its coordinator thread reaches the
`lane_process_semaphore_.acquire()` line in `ProcessAllChunksForLane`. -/
def tryInvoke (s : SysState) (v : WhichInv) : Option SysState :=
  if (s.get v).phase = .notStarted then some (s.set v { s.get v with phase := .acqLane })
  else none

/-- `lane_process_semaphore_.acquire()` succeeds: only one lane may queue
tasks at a time. -/
def tryAcquireLane (s : SysState) (v : WhichInv) : Option SysState :=
  if (s.get v).phase = .acqLane ∧ s.laneSem ≠ 0 then
    some { s.set v { s.get v with phase := .reading } with laneSem := s.laneSem - 1 }
  else none

/-- `data_lane.read(chunk_data)` returns `true`: the next chunk payload is
pulled off the lane and the coordinator enters `QueueChunk`, about to acquire
`processing_count_semaphore_`. -/
def tryReadChunk (s : SysState) (v : WhichInv) : Option SysState :=
  if (s.get v).phase = .reading then
    match (s.get v).remaining with
    | p :: rest => some (s.set v { s.get v with phase := .acqCount p, remaining := rest })
    | [] => none
  else none

/-- `data_lane.read(chunk_data)` returns `false`: the loop ends and the
coordinator releases `lane_process_semaphore_`, letting a second lane start
queuing even though this lane's tasks may still be processing. -/
def tryLaneEmpty (s : SysState) (v : WhichInv) : Option SysState :=
  if (s.get v).phase = .reading ∧ (s.get v).remaining = [] then
    some { s.set v { s.get v with phase := .drain0 } with laneSem := s.laneSem + 1 }
  else none

/-- `processing_count_semaphore_.acquire()` in `QueueChunk` succeeds. -/
def tryAcquireCount (s : SysState) (v : WhichInv) : Option SysState :=
  match (s.get v).phase with
  | .acqCount p =>
      if s.countSem ≠ 0 then
        some { s.set v { s.get v with phase := .acqLocal p } with countSem := s.countSem - 1 }
      else none
  | _ => none

/-- `currently_processing_semaphore.acquire()` in `QueueChunk` succeeds
(invocation-local semaphore). -/
def tryAcquireLocal (s : SysState) (v : WhichInv) : Option SysState :=
  match (s.get v).phase with
  | .acqLocal p =>
      if (s.get v).localSem ≠ 0 then
        some (s.set v
          { s.get v with phase := .acqOrder p, localSem := (s.get v).localSem - 1 })
      else none
  | _ => none

/-- `processing_order_semaphore_.acquire()` succeeds, directly followed by
the non-blocking `task_queue_.Emplace(...)`: the work item capturing the
chunk payload and its index is appended, and the coordinator loops back to
the lane read. -/
def tryAcquireOrder (s : SysState) (v : WhichInv) : Option SysState :=
  match (s.get v).phase with
  | .acqOrder p =>
      if s.orderSem ≠ 0 then
        some { (s.set v
            { s.get v with
              phase := .reading
              tasks := (s.get v).tasks ++ [{ payload := p, phase := .queued }] }) with
          orderSem := s.orderSem - 1 }
      else none
  | _ => none

/-- One of the two final `currently_processing_semaphore.acquire()` calls at
the end of `Process` succeeds. -/
def tryDrainAcquire (s : SysState) (v : WhichInv) : Option SysState :=
  if (s.get v).phase = .drain0 then
    if (s.get v).localSem ≠ 0 then
      some (s.set v { s.get v with phase := .drain1, localSem := (s.get v).localSem - 1 })
    else none
  else if (s.get v).phase = .drain1 then
    if (s.get v).localSem ≠ 0 then
      some (s.set v { s.get v with phase := .done, localSem := (s.get v).localSem - 1 })
    else none
  else none

/-- Internal helper: advance the phase of work item `i` of invocation `v`
from `p0` to `p1`. -/
def stepTask (s : SysState) (v : WhichInv) (i : Nat) (p0 p1 : TaskPhase) : Option SysState :=
  match (s.get v).tasks[i]? with
  | some t =>
      if t.phase = p0 then
        some (s.set v { s.get v with tasks := (s.get v).tasks.set i { t with phase := p1 } })
      else none
  | none => none

/-- A worker thread of the shared task queue starts executing work item `i`:
the processing function is entered. -/
def tryStartTask (s : SysState) (v : WhichInv) (i : Nat) : Option SysState :=
  stepTask s v i .queued .runningPre

/-- The processing function of work item `i` calls `release()` on
`processing_order_semaphore_` (the documented callback contract: exactly once
per chunk, at the point where overlap may commence). -/
def trySignalOrder (s : SysState) (v : WhichInv) (i : Nat) : Option SysState :=
  (stepTask s v i .runningPre .runningPost).map fun s' => { s' with orderSem := s.orderSem + 1 }

/-- The processing function of work item `i` returns normally; the two
trailing releases of the work-item body are still to run. -/
def tryReturnTask (s : SysState) (v : WhichInv) (i : Nat) : Option SysState :=
  stepTask s v i .runningPost .returned

/-- The work-item body executes `currently_processing_semaphore.release()`. -/
def tryReleaseLocal (s : SysState) (v : WhichInv) (i : Nat) : Option SysState :=
  (stepTask s v i .returned .releasedLocal).map fun s' =>
    s'.set v { s'.get v with localSem := (s'.get v).localSem + 1 }

/-- The work-item body executes `processing_count_semaphore_.release()`;
work item `i` is complete. -/
def tryReleaseCount (s : SysState) (v : WhichInv) (i : Nat) : Option SysState :=
  (stepTask s v i .releasedLocal .finished).map fun s' => { s' with countSem := s.countSem + 1 }

/-- The processing function of work item `i` exits abnormally (raises), so
control never reaches the two releases that follow it in the work-item
body. -/
def tryFault (s : SysState) (v : WhichInv) (i : Nat) : Option SysState :=
  match stepTask s v i .runningPre .faultedPre with
  | some s' => some s'
  | none => stepTask s v i .runningPost .faultedPost

/-- The step function of the transition system: `stepFn s l = some s'` when
label `l` is enabled in state `s` and leads to `s'`. -/
def stepFn (s : SysState) : Label → Option SysState
  | .invoke v => tryInvoke s v
  | .acquireLane v => tryAcquireLane s v
  | .readChunk v => tryReadChunk s v
  | .laneEmpty v => tryLaneEmpty s v
  | .acquireCount v => tryAcquireCount s v
  | .acquireLocal v => tryAcquireLocal s v
  | .acquireOrder v => tryAcquireOrder s v
  | .drainAcquire v => tryDrainAcquire s v
  | .startTask v i => tryStartTask s v i
  | .signalOrder v i => trySignalOrder s v i
  | .returnTask v i => tryReturnTask s v i
  | .releaseLocal v i => tryReleaseLocal s v i
  | .releaseCount v i => tryReleaseCount s v i
  | .fault v i => tryFault s v i

/-- Run a list of labels from a state; `none` when some label is not
enabled where it occurs. -/
def run (s : SysState) : List Label → Option SysState
  | [] => some s
  | l :: ls =>
      match stepFn s l with
      | some s' => run s' ls
      | none => none

/-- `Exec cA cB tr s`: executing the schedule `tr` from the initial state of
an instance whose invocation A processes the chunk stream `cA` and whose
invocation B processes `cB` is valid and reaches state `s`. -/
abbrev Exec (cA cB : List Nat) (tr : List Label) (s : SysState) : Prop :=
  run (initState cA cB) tr = some s

/-- The chunk stream an invocation reads. -/
def chunksOf (cA cB : List Nat) : WhichInv → List Nat
  | .A => cA
  | .B => cB

/-- The diagnostic lines the coordinator writes during one step, mirroring
the three `if (!log_tag.empty()) Logger::Debug << ...` sites of the source:
after each successful lane read, after the lane release, and after the
second final drain acquire at the end of `Process`.  The tag of the acting
invocation selects the text; an empty tag suppresses all output. -/
def emitLog (tagA tagB : String) (s : SysState) (l : Label) : List String :=
  match l.who with
  | .A =>
      if tagA = "" then []
      else
        match l with
        | .readChunk v => ["Queue " ++ tagA ++ " chunk " ++ toString (s.get v).tasks.length
            ++ ".\n"]
        | .laneEmpty _ => ["All " ++ tagA ++ " chunks queued.\n"]
        | .drainAcquire v =>
            if (s.get v).phase = .drain1 then ["All " ++ tagA ++ " chunks processed.\n"]
            else []
        | _ => []
  | .B =>
      if tagB = "" then []
      else
        match l with
        | .readChunk v => ["Queue " ++ tagB ++ " chunk " ++ toString (s.get v).tasks.length
            ++ ".\n"]
        | .laneEmpty _ => ["All " ++ tagB ++ " chunks queued.\n"]
        | .drainAcquire v =>
            if (s.get v).phase = .drain1 then ["All " ++ tagB ++ " chunks processed.\n"]
            else []
        | _ => []

/-- `run` extended with the accumulated diagnostic output, the `log_tag`
strings of the two invocations given as parameters. -/
def runLog (tagA tagB : String) : SysState × List String → List Label →
    Option (SysState × List String)
  | (s, out), [] => some (s, out)
  | (s, out), l :: ls =>
      match stepFn s l with
      | some s' => runLog tagA tagB (s', out ++ emitLog tagA tagB s l) ls
      | none => none


/-- A complete one-invocation schedule processing the single chunk `7`. -/
def trFull1 : List Label := [
  .invoke .A, .acquireLane .A,
  .readChunk .A, .acquireCount .A, .acquireLocal .A, .acquireOrder .A,
  .laneEmpty .A,
  .startTask .A 0, .signalOrder .A 0,
  .returnTask .A 0, .releaseLocal .A 0, .releaseCount .A 0,
  .drainAcquire .A, .drainAcquire .A]

/-- The state reached by `trFull1` on streams `[7]` / `[]`. -/
def sFull1 : SysState where
  invA := { phase := .done
            remaining := []
            tasks := [{ payload := 7, phase := .finished }]
            localSem := 0 }
  invB := { phase := .notStarted, remaining := [], tasks := [], localSem := 2 }
  countSem := 2
  orderSem := 1
  laneSem := 1

/-- A complete one-invocation schedule processing chunks `10, 20` with the
two callbacks overlapping. -/
def trFull2 : List Label := [
  .invoke .A, .acquireLane .A,
  .readChunk .A, .acquireCount .A, .acquireLocal .A, .acquireOrder .A,
  .startTask .A 0, .signalOrder .A 0,
  .readChunk .A, .acquireCount .A, .acquireLocal .A, .acquireOrder .A,
  .startTask .A 1, .signalOrder .A 1,
  .returnTask .A 0, .releaseLocal .A 0, .releaseCount .A 0,
  .returnTask .A 1, .releaseLocal .A 1, .releaseCount .A 1,
  .laneEmpty .A, .drainAcquire .A, .drainAcquire .A]

/-- The state reached by `trFull2` on streams `[10, 20]` / `[]`. -/
def sFull2 : SysState where
  invA := { phase := .done
            remaining := []
            tasks := [{ payload := 10, phase := .finished },
                      { payload := 20, phase := .finished }]
            localSem := 0 }
  invB := { phase := .notStarted, remaining := [], tasks := [], localSem := 2 }
  countSem := 2
  orderSem := 1
  laneSem := 1

/-- Two-invocation schedule over streams `[10, 20, 30]` (invocation A) and
`[40, 50]` (invocation B): B is invoked while A is reading its lane, chunk
`a0` completes, `a1` signals and keeps running, `a2` is queued and completes,
A releases the lane, B acquires it and queues and starts `b0` — all while
`a1` is still mid-execution. -/
def trC5 : List Label := [
  .invoke .A, .acquireLane .A,
  .readChunk .A, .acquireCount .A, .acquireLocal .A, .acquireOrder .A,
  .invoke .B,
  .startTask .A 0, .signalOrder .A 0,
  .readChunk .A, .acquireCount .A, .acquireLocal .A, .acquireOrder .A,
  .startTask .A 1, .signalOrder .A 1,
  .returnTask .A 0, .releaseLocal .A 0, .releaseCount .A 0,
  .readChunk .A, .acquireCount .A, .acquireLocal .A, .acquireOrder .A,
  .laneEmpty .A,
  .startTask .A 2, .signalOrder .A 2,
  .returnTask .A 2, .releaseLocal .A 2, .releaseCount .A 2,
  .acquireLane .B,
  .readChunk .B, .acquireCount .B, .acquireLocal .B, .acquireOrder .B,
  .startTask .B 0]

/-- The state reached by `trC5`: `b0` has just started while `a1` is still
mid-execution (`runningPost`). -/
def sC5 : SysState where
  invA := { phase := .drain0
            remaining := []
            tasks := [{ payload := 10, phase := .finished },
                      { payload := 20, phase := .runningPost },
                      { payload := 30, phase := .finished }]
            localSem := 1 }
  invB := { phase := .reading
            remaining := [50]
            tasks := [{ payload := 40, phase := .runningPre }]
            localSem := 1 }
  countSem := 0
  orderSem := 0
  laneSem := 0

/-- The state reached by the first six labels of `trC5`, at the moment B's
`Process` is invoked: A is still pulling its lane. -/
def sC5mid : SysState where
  invA := { phase := .reading
            remaining := [20, 30]
            tasks := [{ payload := 10, phase := .queued }]
            localSem := 1 }
  invB := { phase := .notStarted, remaining := [40, 50], tasks := [], localSem := 2 }
  countSem := 1
  orderSem := 0
  laneSem := 0

/-- A complete invocation over an empty stream. -/
def trEmpty : List Label :=
  [.invoke .A, .acquireLane .A, .laneEmpty .A, .drainAcquire .A, .drainAcquire .A]

/-- The state reached by `trEmpty` on streams `[]` / `[5]`. -/
def sEmpty : SysState where
  invA := { phase := .done, remaining := [], tasks := [], localSem := 0 }
  invB := { phase := .notStarted, remaining := [5], tasks := [], localSem := 2 }
  countSem := 2
  orderSem := 1
  laneSem := 1

/-- One-chunk schedule whose callback exits abnormally before signalling. -/
def trFault : List Label := [
  .invoke .A, .acquireLane .A,
  .readChunk .A, .acquireCount .A, .acquireLocal .A, .acquireOrder .A,
  .laneEmpty .A,
  .startTask .A 0, .fault .A 0]

/-- The state reached by `trFault` on streams `[9]` / `[]`. -/
def sFault : SysState where
  invA := { phase := .drain0
            remaining := []
            tasks := [{ payload := 9, phase := .faultedPre }]
            localSem := 1 }
  invB := { phase := .notStarted, remaining := [], tasks := [], localSem := 2 }
  countSem := 1
  orderSem := 0
  laneSem := 1

/-- The state reached from `sFault` by the one drain acquire that can still
succeed: the coordinator is stuck at `drain1` with the local semaphore
empty. -/
def sFaultLater : SysState where
  invA := { phase := .drain1
            remaining := []
            tasks := [{ payload := 9, phase := .faultedPre }]
            localSem := 0 }
  invB := { phase := .notStarted, remaining := [], tasks := [], localSem := 2 }
  countSem := 1
  orderSem := 0
  laneSem := 1

/-! ### Counting helpers and the global invariant -/

/-- The work item still holds one unit of `processing_count_semaphore_`
(acquired before it was queued, released only when it reaches `finished`). -/
@[simp] def TaskPhase.holdsCount : TaskPhase → Bool
  | .finished => false
  | .queued | .runningPre | .runningPost | .returned | .releasedLocal
  | .faultedPre | .faultedPost => true

/-- The work item still holds one unit of the invocation-local
`currently_processing_semaphore`. -/
@[simp] def TaskPhase.holdsLocal : TaskPhase → Bool
  | .releasedLocal | .finished => false
  | .queued | .runningPre | .runningPost | .returned | .faultedPre | .faultedPost => true

/-- The work item still holds the `processing_order_semaphore_` unit acquired
before it was queued (its callback has not yet released it). -/
@[simp] def TaskPhase.holdsOrder : TaskPhase → Bool
  | .queued | .runningPre | .faultedPre => true
  | .runningPost | .returned | .releasedLocal | .finished | .faultedPost => false

/-- The callback released the order semaphore (it signalled). -/
@[simp] def TaskPhase.signaled : TaskPhase → Bool
  | .runningPost | .returned | .releasedLocal | .finished | .faultedPost => true
  | .queued | .runningPre | .faultedPre => false

/-- The callback is mid-execution: started but not yet exited. -/
@[simp] def TaskPhase.midExec : TaskPhase → Bool
  | .runningPre | .runningPost => true
  | .queued | .returned | .releasedLocal | .finished | .faultedPre | .faultedPost => false

/-- The callback has started (the work item left the `queued` phase). -/
@[simp] def TaskPhase.isStarted : TaskPhase → Bool
  | .queued => false
  | .runningPre | .runningPost | .returned | .releasedLocal | .finished
  | .faultedPre | .faultedPost => true

/-- The callback has returned normally (possibly with trailing releases still
pending). -/
@[simp] def TaskPhase.callbackDone : TaskPhase → Bool
  | .returned | .releasedLocal | .finished => true
  | .queued | .runningPre | .runningPost | .faultedPre | .faultedPost => false

/-- The callback exited abnormally. -/
@[simp] def TaskPhase.isFaulted : TaskPhase → Bool
  | .faultedPre | .faultedPost => true
  | .queued | .runningPre | .runningPost | .returned | .releasedLocal | .finished => false

/-- Number of this invocation's work items whose phase satisfies `q`. -/
def InvState.countPh (iv : InvState) (q : TaskPhase → Bool) : Nat :=
  iv.tasks.countP fun t => q t.phase

/-- Chunks of this invocation that are outstanding: queued (work item
emplaced) but not yet finished. -/
def InvState.outstanding (iv : InvState) : Nat := iv.countPh TaskPhase.holdsCount

/-- Work items of this invocation still holding a unit of the
invocation-local semaphore. -/
def InvState.localHeldTasks (iv : InvState) : Nat := iv.countPh TaskPhase.holdsLocal

/-- Work items of this invocation whose callback has not yet signalled the
order semaphore. -/
def InvState.unsignaled (iv : InvState) : Nat := iv.countPh TaskPhase.holdsOrder

/-- Callbacks of this invocation currently mid-execution. -/
def InvState.midExecCount (iv : InvState) : Nat := iv.countPh TaskPhase.midExec

/-- The coordinator holds one unit of `processing_count_semaphore_` for the
chunk it is currently pushing through `QueueChunk` (acquired, chunk not yet
emplaced). -/
@[simp] def CoordPhase.countHold : CoordPhase → Nat
  | .acqLocal _ | .acqOrder _ => 1
  | .notStarted | .acqLane | .reading | .acqCount _ | .drain0 | .drain1 | .done => 0

/-- The coordinator holds one unit of the invocation-local semaphore for the
chunk it is currently pushing through `QueueChunk`. -/
@[simp] def CoordPhase.localHold : CoordPhase → Nat
  | .acqOrder _ => 1
  | .notStarted | .acqLane | .reading | .acqCount _ | .acqLocal _ | .drain0 | .drain1
  | .done => 0

/-- The coordinator holds `lane_process_semaphore_` (from its acquire at the
top of `ProcessAllChunksForLane` until the release after the read loop). -/
@[simp] def CoordPhase.laneHeld : CoordPhase → Nat
  | .reading | .acqCount _ | .acqLocal _ | .acqOrder _ => 1
  | .notStarted | .acqLane | .drain0 | .drain1 | .done => 0

/-- How many of the two final drain acquires at the end of `Process` this
coordinator has completed. -/
@[simp] def CoordPhase.drains : CoordPhase → Nat
  | .drain1 => 1
  | .done => 2
  | .notStarted | .acqLane | .reading | .acqCount _ | .acqLocal _ | .acqOrder _ | .drain0 => 0

/-- The chunk payload currently held by the coordinator between the lane read
and the `Emplace`. -/
@[simp] def CoordPhase.heldChunk : CoordPhase → List Nat
  | .acqCount p | .acqLocal p | .acqOrder p => [p]
  | .notStarted | .acqLane | .reading | .drain0 | .drain1 | .done => []

/-- The coordinator is past its read loop (it has released the lane
semaphore and queues no further chunks). -/
@[simp] def CoordPhase.doneQueuing : CoordPhase → Bool
  | .drain0 | .drain1 | .done => true
  | .notStarted | .acqLane | .reading | .acqCount _ | .acqLocal _ | .acqOrder _ => false

/-- Per-invocation part of the global invariant, `cv` being the invocation's
chunk stream: (1) accounting of the invocation-local capacity-2 semaphore;
(2) the queued payloads, the payload held by the coordinator and the chunks
still on the lane concatenate to the original stream; (3) every work item
with a successor has signalled (only the most recently queued work item can
still hold the order semaphore); (4) once the coordinator is past its read
loop the lane is empty. -/
def InvLocal (cv : List Nat) (iv : InvState) : Prop :=
  (iv.localSem + iv.phase.localHold + iv.localHeldTasks + iv.phase.drains = 2)
  ∧ (iv.tasks.map TaskState.payload ++ iv.phase.heldChunk ++ iv.remaining = cv)
  ∧ (∀ i t t', iv.tasks[i]? = some t → iv.tasks[i + 1]? = some t' → t.phase.signaled = true)
  ∧ (iv.phase.doneQueuing = true → iv.remaining = [])

/-- Global invariant of the transition system: exact accounting of the three
instance-wide semaphores against their holders, plus the per-invocation
invariants. -/
structure SysInv (cA cB : List Nat) (s : SysState) : Prop where
  countEq : s.countSem + (s.invA.phase.countHold + s.invA.outstanding)
      + (s.invB.phase.countHold + s.invB.outstanding) = 2
  orderEq : s.orderSem + s.invA.unsignaled + s.invB.unsignaled = 1
  laneEq : s.laneSem + s.invA.phase.laneHeld + s.invB.phase.laneHeld = 1
  locA : InvLocal cA s.invA
  locB : InvLocal cB s.invB

/-- The in-order signalling property of a task list: every work item that has
a successor on the list has already released the order semaphore. -/
def SeqOk (l : List TaskState) : Prop :=
  ∀ i t t', l[i]? = some t → l[i + 1]? = some t' → t.phase.signaled = true

/-- The seven possible phase transitions of a work item. -/
def TransStep (p0 p1 : TaskPhase) : Prop :=
  (p0 = .queued ∧ p1 = .runningPre) ∨ (p0 = .runningPre ∧ p1 = .runningPost) ∨
  (p0 = .runningPost ∧ p1 = .returned) ∨ (p0 = .returned ∧ p1 = .releasedLocal) ∨
  (p0 = .releasedLocal ∧ p1 = .finished) ∨ (p0 = .runningPre ∧ p1 = .faultedPre) ∨
  (p0 = .runningPost ∧ p1 = .faultedPost)

/-! ### Auxiliary lemmas for the invariant proof -/

/-- A phase has signalled exactly when it no longer holds the order
semaphore. -/
lemma signaled_eq_not_holdsOrder (p : TaskPhase) : p.signaled = !p.holdsOrder := by
  cases p <;> rfl

/-- Updating one entry of a task list changes a phase count according to the
old and new phases. -/
lemma countP_set_add {l : List TaskState} {i : Nat} {t : TaskState} (tnew : TaskState)
    (h : l[i]? = some t) (q : TaskPhase → Bool) :
    (l.set i tnew).countP (fun x => q x.phase) + (if q t.phase then 1 else 0)
      = l.countP (fun x => q x.phase) + (if q tnew.phase then 1 else 0) := by
  obtain ⟨hlt, rfl⟩ := List.getElem?_eq_some.mp h
  rw [List.countP_set _ _ _ _ hlt]
  have hle : (if q l[i].phase then 1 else 0) ≤ l.countP (fun x => q x.phase) := by
    split
    · exact Nat.one_le_iff_ne_zero.mpr (Nat.pos_iff_ne_zero.mp
        (List.countP_pos.mpr ⟨l[i], List.getElem_mem hlt, by simp_all⟩))
    · exact Nat.zero_le _
  omega

/-- `SeqOk` is preserved by any in-place phase update that does not
un-signal a work item. -/
lemma seqOk_set {l : List TaskState} {i : Nat} {t : TaskState} (tnew : TaskState)
    (h : l[i]? = some t) (hmono : t.phase.signaled = true → tnew.phase.signaled = true)
    (hseq : SeqOk l) : SeqOk (l.set i tnew) := by
  intro j u u' hj hj1
  obtain ⟨hlt, _⟩ := List.getElem?_eq_some.mp h
  by_cases hij : i = j
  · subst hij
    rw [List.getElem?_set_eq_of_lt _ hlt] at hj
    cases hj
    rw [List.getElem?_set_ne (by omega)] at hj1
    exact hmono (hseq i t u' h hj1)
  · rw [List.getElem?_set_ne hij] at hj
    by_cases hij1 : i = j + 1
    · subst hij1
      rw [List.getElem?_set_eq_of_lt _ hlt] at hj1
      exact hseq j u t hj h
    · rw [List.getElem?_set_ne hij1] at hj1
      exact hseq j u u' hj hj1

/-- `SeqOk` holds after appending a fresh work item provided every existing
work item has signalled. -/
lemma seqOk_append {l : List TaskState} (a : TaskState)
    (hall : ∀ t ∈ l, t.phase.signaled = true) : SeqOk (l ++ [a]) := by
  intro j u u' hj hj1
  have hlen : j + 1 < (l ++ [a]).length := (List.getElem?_eq_some.mp hj1).1
  have hjl : j < l.length := by simp at hlen; omega
  rw [List.getElem?_append, if_pos hjl] at hj
  exact hall u (by exact List.mem_iff_getElem?.mpr ⟨j, hj⟩)

/-- If the count of unsignalled work items is zero, every work item has
signalled. -/
lemma all_signaled_of_unsignaled_zero {iv : InvState} (h : iv.unsignaled = 0) :
    ∀ t ∈ iv.tasks, t.phase.signaled = true := by
  intro t ht
  have := (List.countP_eq_zero.mp h) t ht
  rw [signaled_eq_not_holdsOrder]
  simp_all

/-- Inversion of `stepTask`. -/
lemma stepTask_some {s s' : SysState} {v : WhichInv} {i : Nat} {p0 p1 : TaskPhase}
    (hs : stepTask s v i p0 p1 = some s') :
    ∃ t, (s.get v).tasks[i]? = some t ∧ t.phase = p0 ∧
      s' = s.set v { s.get v with tasks := (s.get v).tasks.set i { t with phase := p1 } } := by
  unfold stepTask at hs
  split at hs
  next t hget =>
    split at hs
    next hp => exact ⟨t, hget, hp, (Option.some_inj.mp hs).symm⟩
    next => exact absurd hs (by simp)
  next => exact absurd hs (by simp)

/-- Updating a work item's phase in place does not change the queued
payload sequence. -/
lemma map_payload_set {l : List TaskState} {i : Nat} {t : TaskState} (h : l[i]? = some t)
    (ph : TaskPhase) :
    (l.set i { t with phase := ph }).map TaskState.payload = l.map TaskState.payload := by
  induction l generalizing i with
  | nil => simp at h
  | cons hd tl ih =>
    cases i with
    | zero =>
      simp only [List.getElem?_cons, if_pos rfl] at h
      cases h
      simp
    | succ n =>
      simp only [List.getElem?_cons] at h
      simp only [List.set_cons_succ, List.map_cons]
      rw [ih (by simpa using h)]

/-- Preservation of the global invariant by a work-item phase update that
keeps every semaphore-holding attribute unchanged and never un-signals. -/
lemma sysInv_stepTask {cA cB : List Nat} {s s' : SysState} {v : WhichInv} {i : Nat}
    {p0 p1 : TaskPhase} (h : SysInv cA cB s) (hs : stepTask s v i p0 p1 = some s')
    (hCount : p0.holdsCount = p1.holdsCount) (hLocal : p0.holdsLocal = p1.holdsLocal)
    (hOrder : p0.holdsOrder = p1.holdsOrder) (hSig : p0.signaled = true → p1.signaled = true) :
    SysInv cA cB s' := by
  obtain ⟨hc, ho, hl, ⟨a1, a2, a3, a4⟩, ⟨b1, b2, b3, b4⟩⟩ := h
  obtain ⟨t, hget, hp, rfl⟩ := stepTask_some hs
  have hmono : t.phase.signaled = true → (TaskState.mk t.payload p1).phase.signaled = true := by
    rw [hp]; exact hSig
  have hcnt : ∀ q : TaskPhase → Bool, q p0 = q p1 →
      ((s.get v).tasks.set i { t with phase := p1 }).countP (fun x => q x.phase)
        = (s.get v).tasks.countP (fun x => q x.phase) := by
    intro q hq
    have := countP_set_add (l := (s.get v).tasks) { t with phase := p1 } hget q
    simp only [hp] at this
    rw [hq] at this
    omega
  have hmap := map_payload_set hget p1
  have hseq : SeqOk ((s.get v).tasks.set i { t with phase := p1 }) := by
    cases v
    · exact seqOk_set _ hget hmono a3
    · exact seqOk_set _ hget hmono b3
  cases v
  · simp only [SysState.get] at hcnt hmap hseq
    exact ⟨by simpa only [SysState.set, SysState.get, InvState.outstanding, InvState.countPh,
              hcnt TaskPhase.holdsCount hCount] using hc,
           by simpa only [SysState.set, SysState.get, InvState.unsignaled, InvState.countPh,
              hcnt TaskPhase.holdsOrder hOrder] using ho,
           hl,
           ⟨by simpa only [SysState.set, SysState.get, InvState.localHeldTasks, InvState.countPh,
              hcnt TaskPhase.holdsLocal hLocal] using a1,
            by simpa only [SysState.set, SysState.get, hmap] using a2, hseq, a4⟩,
           ⟨b1, b2, b3, b4⟩⟩
  · simp only [SysState.get] at hcnt hmap hseq
    exact ⟨by simpa only [SysState.set, SysState.get, InvState.outstanding, InvState.countPh,
              hcnt TaskPhase.holdsCount hCount] using hc,
           by simpa only [SysState.set, SysState.get, InvState.unsignaled, InvState.countPh,
              hcnt TaskPhase.holdsOrder hOrder] using ho,
           hl,
           ⟨a1, a2, a3, a4⟩,
           ⟨by simpa only [SysState.set, SysState.get, InvState.localHeldTasks, InvState.countPh,
              hcnt TaskPhase.holdsLocal hLocal] using b1,
            by simpa only [SysState.set, SysState.get, hmap] using b2, hseq, b4⟩⟩

/-- Variant of `countP_set_add` with the updated phase spelled out. -/
lemma countP_set_concrete {l : List TaskState} {i : Nat} {t : TaskState} (h : l[i]? = some t)
    (q : TaskPhase → Bool) (p1 : TaskPhase) :
    (l.set i { t with phase := p1 }).countP (fun x => q x.phase) + (if q t.phase then 1 else 0)
      = l.countP (fun x => q x.phase) + (if q p1 then 1 else 0) := by
  simpa using countP_set_add { t with phase := p1 } h q

/-- Preservation: the callback of work item `i` releases the order
semaphore. -/
lemma sysInv_signalOrder {cA cB : List Nat} {s s' : SysState} {v : WhichInv} {i : Nat}
    (h : SysInv cA cB s) (hs : trySignalOrder s v i = some s') : SysInv cA cB s' := by
  obtain ⟨hc, ho, hl, ⟨a1, a2, a3, a4⟩, ⟨b1, b2, b3, b4⟩⟩ := h
  unfold trySignalOrder at hs
  cases hst : stepTask s v i .runningPre .runningPost with
  | none => rw [hst] at hs; exact absurd hs (by simp)
  | some s1 =>
    rw [hst] at hs
    obtain ⟨t, hget, hp, h1⟩ := stepTask_some hst
    subst h1
    simp only [Option.map_some'] at hs
    obtain rfl := Option.some_inj.mp hs
    have ecnt : ∀ q : TaskPhase → Bool,
        ((s.get v).tasks.set i { t with phase := .runningPost }).countP (fun x => q x.phase)
            + (if q .runningPre then 1 else 0)
          = (s.get v).tasks.countP (fun x => q x.phase) + (if q .runningPost then 1 else 0) := by
      intro q
      have := countP_set_concrete hget q .runningPost
      rw [hp] at this
      exact this
    have hmono : t.phase.signaled = true → (TaskState.mk t.payload .runningPost).phase.signaled
        = true := fun _ => rfl
    have hseq : SeqOk ((s.get v).tasks.set i { t with phase := .runningPost }) := by
      cases v
      · exact seqOk_set _ hget hmono a3
      · exact seqOk_set _ hget hmono b3
    have hmap := map_payload_set hget .runningPost
    have e1 := ecnt TaskPhase.holdsCount
    have e2 := ecnt TaskPhase.holdsOrder
    have e3 := ecnt TaskPhase.holdsLocal
    simp at e1 e2 e3
    cases v
    · simp only [SysState.get] at e1 e2 e3 hmap hseq
      refine ⟨?_, ?_, ?_, ⟨?_, ?_, hseq, a4⟩, ⟨b1, b2, b3, b4⟩⟩ <;>
        simp_all [InvState.outstanding, InvState.unsignaled, InvState.localHeldTasks,
          InvState.countPh] <;> omega
    · simp only [SysState.get] at e1 e2 e3 hmap hseq
      refine ⟨?_, ?_, ?_, ⟨a1, a2, a3, a4⟩, ⟨?_, ?_, hseq, b4⟩⟩ <;>
        simp_all [InvState.outstanding, InvState.unsignaled, InvState.localHeldTasks,
          InvState.countPh] <;> omega

/-- Preservation: the work-item body of item `i` releases the
invocation-local semaphore after its callback returned. -/
lemma sysInv_releaseLocal {cA cB : List Nat} {s s' : SysState} {v : WhichInv} {i : Nat}
    (h : SysInv cA cB s) (hs : tryReleaseLocal s v i = some s') : SysInv cA cB s' := by
  obtain ⟨hc, ho, hl, ⟨a1, a2, a3, a4⟩, ⟨b1, b2, b3, b4⟩⟩ := h
  unfold tryReleaseLocal at hs
  cases hst : stepTask s v i .returned .releasedLocal with
  | none => rw [hst] at hs; exact absurd hs (by simp)
  | some s1 =>
    rw [hst] at hs
    obtain ⟨t, hget, hp, h1⟩ := stepTask_some hst
    subst h1
    simp only [Option.map_some'] at hs
    obtain rfl := Option.some_inj.mp hs
    have ecnt : ∀ q : TaskPhase → Bool,
        ((s.get v).tasks.set i { t with phase := .releasedLocal }).countP (fun x => q x.phase)
            + (if q .returned then 1 else 0)
          = (s.get v).tasks.countP (fun x => q x.phase)
            + (if q .releasedLocal then 1 else 0) := by
      intro q
      have := countP_set_concrete hget q .releasedLocal
      rw [hp] at this
      exact this
    have hmono : t.phase.signaled = true → (TaskState.mk t.payload .releasedLocal).phase.signaled
        = true := fun _ => rfl
    have hseq : SeqOk ((s.get v).tasks.set i { t with phase := .releasedLocal }) := by
      cases v
      · exact seqOk_set _ hget hmono a3
      · exact seqOk_set _ hget hmono b3
    have hmap := map_payload_set hget .releasedLocal
    have e1 := ecnt TaskPhase.holdsCount
    have e2 := ecnt TaskPhase.holdsOrder
    have e3 := ecnt TaskPhase.holdsLocal
    simp at e1 e2 e3
    cases v
    · simp only [SysState.get] at e1 e2 e3 hmap hseq
      refine ⟨?_, ?_, ?_, ⟨?_, ?_, hseq, a4⟩, ⟨b1, b2, b3, b4⟩⟩ <;>
        simp_all [InvState.outstanding, InvState.unsignaled, InvState.localHeldTasks,
          InvState.countPh] <;> omega
    · simp only [SysState.get] at e1 e2 e3 hmap hseq
      refine ⟨?_, ?_, ?_, ⟨a1, a2, a3, a4⟩, ⟨?_, ?_, hseq, b4⟩⟩ <;>
        simp_all [InvState.outstanding, InvState.unsignaled, InvState.localHeldTasks,
          InvState.countPh] <;> omega

/-- Preservation: the work-item body of item `i` releases the count
semaphore; the work item is complete. -/
lemma sysInv_releaseCount {cA cB : List Nat} {s s' : SysState} {v : WhichInv} {i : Nat}
    (h : SysInv cA cB s) (hs : tryReleaseCount s v i = some s') : SysInv cA cB s' := by
  obtain ⟨hc, ho, hl, ⟨a1, a2, a3, a4⟩, ⟨b1, b2, b3, b4⟩⟩ := h
  unfold tryReleaseCount at hs
  cases hst : stepTask s v i .releasedLocal .finished with
  | none => rw [hst] at hs; exact absurd hs (by simp)
  | some s1 =>
    rw [hst] at hs
    obtain ⟨t, hget, hp, h1⟩ := stepTask_some hst
    subst h1
    simp only [Option.map_some'] at hs
    obtain rfl := Option.some_inj.mp hs
    have ecnt : ∀ q : TaskPhase → Bool,
        ((s.get v).tasks.set i { t with phase := .finished }).countP (fun x => q x.phase)
            + (if q .releasedLocal then 1 else 0)
          = (s.get v).tasks.countP (fun x => q x.phase) + (if q .finished then 1 else 0) := by
      intro q
      have := countP_set_concrete hget q .finished
      rw [hp] at this
      exact this
    have hmono : t.phase.signaled = true → (TaskState.mk t.payload .finished).phase.signaled
        = true := fun _ => rfl
    have hseq : SeqOk ((s.get v).tasks.set i { t with phase := .finished }) := by
      cases v
      · exact seqOk_set _ hget hmono a3
      · exact seqOk_set _ hget hmono b3
    have hmap := map_payload_set hget .finished
    have e1 := ecnt TaskPhase.holdsCount
    have e2 := ecnt TaskPhase.holdsOrder
    have e3 := ecnt TaskPhase.holdsLocal
    simp at e1 e2 e3
    cases v
    · simp only [SysState.get] at e1 e2 e3 hmap hseq
      refine ⟨?_, ?_, ?_, ⟨?_, ?_, hseq, a4⟩, ⟨b1, b2, b3, b4⟩⟩ <;>
        simp_all [InvState.outstanding, InvState.unsignaled, InvState.localHeldTasks,
          InvState.countPh] <;> omega
    · simp only [SysState.get] at e1 e2 e3 hmap hseq
      refine ⟨?_, ?_, ?_, ⟨a1, a2, a3, a4⟩, ⟨?_, ?_, hseq, b4⟩⟩ <;>
        simp_all [InvState.outstanding, InvState.unsignaled, InvState.localHeldTasks,
          InvState.countPh] <;> omega

/-- Preservation: `Process` is entered. -/
lemma sysInv_invoke {cA cB : List Nat} {s s' : SysState} {v : WhichInv}
    (h : SysInv cA cB s) (hs : tryInvoke s v = some s') : SysInv cA cB s' := by
  obtain ⟨hc, ho, hl, ⟨a1, a2, a3, a4⟩, ⟨b1, b2, b3, b4⟩⟩ := h
  unfold tryInvoke at hs
  split at hs
  · obtain rfl := Option.some_inj.mp hs
    cases v
    · refine ⟨?_, ?_, ?_, ⟨?_, ?_, a3, ?_⟩, ⟨b1, b2, b3, b4⟩⟩ <;>
        simp_all [InvState.outstanding, InvState.unsignaled, InvState.localHeldTasks,
          InvState.countPh]
    · refine ⟨?_, ?_, ?_, ⟨a1, a2, a3, a4⟩, ⟨?_, ?_, b3, ?_⟩⟩ <;>
        simp_all [InvState.outstanding, InvState.unsignaled, InvState.localHeldTasks,
          InvState.countPh]
  · exact absurd hs (by simp)

/-- Preservation: the lane semaphore is acquired. -/
lemma sysInv_acquireLane {cA cB : List Nat} {s s' : SysState} {v : WhichInv}
    (h : SysInv cA cB s) (hs : tryAcquireLane s v = some s') : SysInv cA cB s' := by
  obtain ⟨hc, ho, hl, ⟨a1, a2, a3, a4⟩, ⟨b1, b2, b3, b4⟩⟩ := h
  unfold tryAcquireLane at hs
  split at hs
  · obtain rfl := Option.some_inj.mp hs
    cases v
    · refine ⟨?_, ?_, ?_, ⟨?_, ?_, a3, ?_⟩, ⟨b1, b2, b3, b4⟩⟩ <;>
        simp_all [InvState.outstanding, InvState.unsignaled, InvState.localHeldTasks,
          InvState.countPh] <;> omega
    · refine ⟨?_, ?_, ?_, ⟨a1, a2, a3, a4⟩, ⟨?_, ?_, b3, ?_⟩⟩ <;>
        simp_all [InvState.outstanding, InvState.unsignaled, InvState.localHeldTasks,
          InvState.countPh] <;> omega
  · exact absurd hs (by simp)

/-- Preservation: a chunk is read off the lane. -/
lemma sysInv_readChunk {cA cB : List Nat} {s s' : SysState} {v : WhichInv}
    (h : SysInv cA cB s) (hs : tryReadChunk s v = some s') : SysInv cA cB s' := by
  obtain ⟨hc, ho, hl, ⟨a1, a2, a3, a4⟩, ⟨b1, b2, b3, b4⟩⟩ := h
  unfold tryReadChunk at hs
  split at hs
  · split at hs
    · obtain rfl := Option.some_inj.mp hs
      cases v
      · refine ⟨?_, ?_, ?_, ⟨?_, ?_, a3, ?_⟩, ⟨b1, b2, b3, b4⟩⟩ <;>
          simp_all [InvState.outstanding, InvState.unsignaled, InvState.localHeldTasks,
            InvState.countPh]
      · refine ⟨?_, ?_, ?_, ⟨a1, a2, a3, a4⟩, ⟨?_, ?_, b3, ?_⟩⟩ <;>
          simp_all [InvState.outstanding, InvState.unsignaled, InvState.localHeldTasks,
            InvState.countPh]
    · exact absurd hs (by simp)
  · exact absurd hs (by simp)

/-- Preservation: the lane is exhausted and the lane semaphore released. -/
lemma sysInv_laneEmpty {cA cB : List Nat} {s s' : SysState} {v : WhichInv}
    (h : SysInv cA cB s) (hs : tryLaneEmpty s v = some s') : SysInv cA cB s' := by
  obtain ⟨hc, ho, hl, ⟨a1, a2, a3, a4⟩, ⟨b1, b2, b3, b4⟩⟩ := h
  unfold tryLaneEmpty at hs
  split at hs
  · obtain rfl := Option.some_inj.mp hs
    cases v
    · refine ⟨?_, ?_, ?_, ⟨?_, ?_, a3, ?_⟩, ⟨b1, b2, b3, b4⟩⟩ <;>
        simp_all [InvState.outstanding, InvState.unsignaled, InvState.localHeldTasks,
          InvState.countPh] <;> omega
    · refine ⟨?_, ?_, ?_, ⟨a1, a2, a3, a4⟩, ⟨?_, ?_, b3, ?_⟩⟩ <;>
        simp_all [InvState.outstanding, InvState.unsignaled, InvState.localHeldTasks,
          InvState.countPh] <;> omega
  · exact absurd hs (by simp)

/-- Preservation: `processing_count_semaphore_` is acquired for a chunk. -/
lemma sysInv_acquireCount {cA cB : List Nat} {s s' : SysState} {v : WhichInv}
    (h : SysInv cA cB s) (hs : tryAcquireCount s v = some s') : SysInv cA cB s' := by
  obtain ⟨hc, ho, hl, ⟨a1, a2, a3, a4⟩, ⟨b1, b2, b3, b4⟩⟩ := h
  unfold tryAcquireCount at hs
  split at hs
  next p hph =>
    split at hs
    · obtain rfl := Option.some_inj.mp hs
      cases v
      · refine ⟨?_, ?_, ?_, ⟨?_, ?_, a3, ?_⟩, ⟨b1, b2, b3, b4⟩⟩ <;>
          simp_all [InvState.outstanding, InvState.unsignaled, InvState.localHeldTasks,
            InvState.countPh] <;> omega
      · refine ⟨?_, ?_, ?_, ⟨a1, a2, a3, a4⟩, ⟨?_, ?_, b3, ?_⟩⟩ <;>
          simp_all [InvState.outstanding, InvState.unsignaled, InvState.localHeldTasks,
            InvState.countPh] <;> omega
    · exact absurd hs (by simp)
  next => exact absurd hs (by simp)

/-- Preservation: the invocation-local semaphore is acquired for a chunk. -/
lemma sysInv_acquireLocal {cA cB : List Nat} {s s' : SysState} {v : WhichInv}
    (h : SysInv cA cB s) (hs : tryAcquireLocal s v = some s') : SysInv cA cB s' := by
  obtain ⟨hc, ho, hl, ⟨a1, a2, a3, a4⟩, ⟨b1, b2, b3, b4⟩⟩ := h
  unfold tryAcquireLocal at hs
  split at hs
  next p hph =>
    split at hs
    · obtain rfl := Option.some_inj.mp hs
      cases v
      · refine ⟨?_, ?_, ?_, ⟨?_, ?_, a3, ?_⟩, ⟨b1, b2, b3, b4⟩⟩ <;>
          simp_all [InvState.outstanding, InvState.unsignaled, InvState.localHeldTasks,
            InvState.countPh] <;> omega
      · refine ⟨?_, ?_, ?_, ⟨a1, a2, a3, a4⟩, ⟨?_, ?_, b3, ?_⟩⟩ <;>
          simp_all [InvState.outstanding, InvState.unsignaled, InvState.localHeldTasks,
            InvState.countPh] <;> omega
    · exact absurd hs (by simp)
  next => exact absurd hs (by simp)

set_option maxHeartbeats 1000000 in
/-- Preservation: the order semaphore is acquired and the work item
emplaced. -/
lemma sysInv_acquireOrder {cA cB : List Nat} {s s' : SysState} {v : WhichInv}
    (h : SysInv cA cB s) (hs : tryAcquireOrder s v = some s') : SysInv cA cB s' := by
  obtain ⟨hc, ho, hl, ⟨a1, a2, a3, a4⟩, ⟨b1, b2, b3, b4⟩⟩ := h
  unfold tryAcquireOrder at hs
  split at hs
  next p hph =>
    split at hs
    next hord =>
      obtain rfl := Option.some_inj.mp hs
      have hallA : s.invA.unsignaled = 0 ∧ s.invB.unsignaled = 0 := by
        constructor <;> omega
      have hsigA := all_signaled_of_unsignaled_zero hallA.1
      have hsigB := all_signaled_of_unsignaled_zero hallA.2
      cases v
      · have hseq : SeqOk (s.invA.tasks ++ [{ payload := p, phase := .queued }]) :=
          seqOk_append _ hsigA
        refine ⟨?_, ?_, ?_, ⟨?_, ?_, hseq, ?_⟩, ⟨b1, b2, b3, b4⟩⟩ <;>
          simp_all [InvState.outstanding, InvState.unsignaled, InvState.localHeldTasks,
            InvState.countPh, List.countP_append, List.countP_cons] <;> omega
      · have hseq : SeqOk (s.invB.tasks ++ [{ payload := p, phase := .queued }]) :=
          seqOk_append _ hsigB
        refine ⟨?_, ?_, ?_, ⟨a1, a2, a3, a4⟩, ⟨?_, ?_, hseq, ?_⟩⟩ <;>
          simp_all [InvState.outstanding, InvState.unsignaled, InvState.localHeldTasks,
            InvState.countPh, List.countP_append, List.countP_cons] <;> omega
    next => exact absurd hs (by simp)
  next => exact absurd hs (by simp)

set_option maxHeartbeats 1000000 in
/-- Preservation: one of the two final drain acquires succeeds. -/
lemma sysInv_drainAcquire {cA cB : List Nat} {s s' : SysState} {v : WhichInv}
    (h : SysInv cA cB s) (hs : tryDrainAcquire s v = some s') : SysInv cA cB s' := by
  obtain ⟨hc, ho, hl, ⟨a1, a2, a3, a4⟩, ⟨b1, b2, b3, b4⟩⟩ := h
  unfold tryDrainAcquire at hs
  split at hs
  · split at hs
    · obtain rfl := Option.some_inj.mp hs
      cases v
      · refine ⟨?_, ?_, ?_, ⟨?_, ?_, a3, ?_⟩, ⟨b1, b2, b3, b4⟩⟩ <;>
          simp_all only [SysState.get, SysState.set, InvState.outstanding,
            InvState.unsignaled, InvState.localHeldTasks, InvState.countPh,
            CoordPhase.countHold, CoordPhase.localHold, CoordPhase.laneHeld,
            CoordPhase.drains, CoordPhase.heldChunk, CoordPhase.doneQueuing,
            Bool.false_eq_true, false_implies, implies_true] <;> omega
      · refine ⟨?_, ?_, ?_, ⟨a1, a2, a3, a4⟩, ⟨?_, ?_, b3, ?_⟩⟩ <;>
          simp_all only [SysState.get, SysState.set, InvState.outstanding,
            InvState.unsignaled, InvState.localHeldTasks, InvState.countPh,
            CoordPhase.countHold, CoordPhase.localHold, CoordPhase.laneHeld,
            CoordPhase.drains, CoordPhase.heldChunk, CoordPhase.doneQueuing,
            Bool.false_eq_true, false_implies, implies_true] <;> omega
    · exact absurd hs (by simp)
  · split at hs
    · split at hs
      · obtain rfl := Option.some_inj.mp hs
        cases v
        · refine ⟨?_, ?_, ?_, ⟨?_, ?_, a3, ?_⟩, ⟨b1, b2, b3, b4⟩⟩ <;>
            simp_all only [SysState.get, SysState.set, InvState.outstanding,
              InvState.unsignaled, InvState.localHeldTasks, InvState.countPh,
              CoordPhase.countHold, CoordPhase.localHold, CoordPhase.laneHeld,
              CoordPhase.drains, CoordPhase.heldChunk, CoordPhase.doneQueuing,
              Bool.false_eq_true, false_implies, implies_true] <;> omega
        · refine ⟨?_, ?_, ?_, ⟨a1, a2, a3, a4⟩, ⟨?_, ?_, b3, ?_⟩⟩ <;>
            simp_all only [SysState.get, SysState.set, InvState.outstanding,
              InvState.unsignaled, InvState.localHeldTasks, InvState.countPh,
              CoordPhase.countHold, CoordPhase.localHold, CoordPhase.laneHeld,
              CoordPhase.drains, CoordPhase.heldChunk, CoordPhase.doneQueuing,
              Bool.false_eq_true, false_implies, implies_true] <;> omega
      · exact absurd hs (by simp)
    · exact absurd hs (by simp)

/-- Preservation: the callback of work item `i` exits abnormally. -/
lemma sysInv_fault {cA cB : List Nat} {s s' : SysState} {v : WhichInv} {i : Nat}
    (h : SysInv cA cB s) (hs : tryFault s v i = some s') : SysInv cA cB s' := by
  unfold tryFault at hs
  cases hst : stepTask s v i .runningPre .faultedPre with
  | some s1 =>
    rw [hst] at hs
    obtain rfl := Option.some_inj.mp hs
    exact sysInv_stepTask h hst rfl rfl rfl id
  | none =>
    rw [hst] at hs
    exact sysInv_stepTask h hs rfl rfl rfl (fun _ => rfl)

/-- Preservation by any enabled step. -/
lemma sysInv_step {cA cB : List Nat} {s s' : SysState} {l : Label}
    (h : SysInv cA cB s) (hs : stepFn s l = some s') : SysInv cA cB s' := by
  cases l with
  | invoke v => exact sysInv_invoke h hs
  | acquireLane v => exact sysInv_acquireLane h hs
  | readChunk v => exact sysInv_readChunk h hs
  | laneEmpty v => exact sysInv_laneEmpty h hs
  | acquireCount v => exact sysInv_acquireCount h hs
  | acquireLocal v => exact sysInv_acquireLocal h hs
  | acquireOrder v => exact sysInv_acquireOrder h hs
  | drainAcquire v => exact sysInv_drainAcquire h hs
  | startTask v i => exact sysInv_stepTask h hs rfl rfl rfl id
  | signalOrder v i => exact sysInv_signalOrder h hs
  | returnTask v i => exact sysInv_stepTask h hs rfl rfl rfl (fun _ => rfl)
  | releaseLocal v i => exact sysInv_releaseLocal h hs
  | releaseCount v i => exact sysInv_releaseCount h hs
  | fault v i => exact sysInv_fault h hs

/-- The invariant holds in the initial state. -/
lemma sysInv_init (cA cB : List Nat) : SysInv cA cB (initState cA cB) := by
  refine ⟨rfl, rfl, rfl, ?_, ?_⟩ <;>
    exact ⟨rfl, rfl, fun i t t' hget _ => by simp [initState] at hget, fun hq => by
      simp [initState] at hq⟩

/-- The invariant is preserved along any run started in a state satisfying
it. -/
lemma sysInv_run_from {cA cB : List Nat} (tr : List Label) (s0 s : SysState)
    (h0 : SysInv cA cB s0) (hr : run s0 tr = some s) : SysInv cA cB s := by
  induction tr generalizing s0 with
  | nil => cases hr; exact h0
  | cons l ls ih =>
    unfold run at hr
    cases hst : stepFn s0 l with
    | none => rw [hst] at hr; exact absurd hr (by simp)
    | some s1 =>
      rw [hst] at hr
      exact ih s1 (sysInv_step h0 hst) hr

/-- The invariant holds in every reachable state. -/
lemma sysInv_run {cA cB : List Nat} {tr : List Label} {s : SysState}
    (h : run (initState cA cB) tr = some s) : SysInv cA cB s :=
  sysInv_run_from tr (initState cA cB) s (sysInv_init cA cB) h

/-! ### Inversion lemmas for the individual steps -/

/-- Inversion of `tryInvoke`. -/
lemma tryInvoke_some {s s' : SysState} {v : WhichInv} (hs : tryInvoke s v = some s') :
    (s.get v).phase = .notStarted ∧ s' = s.set v { s.get v with phase := .acqLane } := by
  unfold tryInvoke at hs
  split at hs
  next hph => exact ⟨hph, (Option.some_inj.mp hs).symm⟩
  next => exact absurd hs (by simp)

/-- Inversion of `tryAcquireLane`. -/
lemma tryAcquireLane_some {s s' : SysState} {v : WhichInv} (hs : tryAcquireLane s v = some s') :
    (s.get v).phase = .acqLane ∧ s.laneSem ≠ 0 ∧
      s' = { s.set v { s.get v with phase := .reading } with laneSem := s.laneSem - 1 } := by
  unfold tryAcquireLane at hs
  split at hs
  next hph => exact ⟨hph.1, hph.2, (Option.some_inj.mp hs).symm⟩
  next => exact absurd hs (by simp)

/-- Inversion of `tryReadChunk`. -/
lemma tryReadChunk_some {s s' : SysState} {v : WhichInv} (hs : tryReadChunk s v = some s') :
    ∃ p rest, (s.get v).phase = .reading ∧ (s.get v).remaining = p :: rest ∧
      s' = s.set v { s.get v with phase := .acqCount p, remaining := rest } := by
  unfold tryReadChunk at hs
  split at hs
  next hph =>
    split at hs
    next p rest hrem => exact ⟨p, rest, hph, hrem, (Option.some_inj.mp hs).symm⟩
    next => exact absurd hs (by simp)
  next => exact absurd hs (by simp)

/-- Inversion of `tryLaneEmpty`. -/
lemma tryLaneEmpty_some {s s' : SysState} {v : WhichInv} (hs : tryLaneEmpty s v = some s') :
    (s.get v).phase = .reading ∧ (s.get v).remaining = [] ∧
      s' = { s.set v { s.get v with phase := .drain0 } with laneSem := s.laneSem + 1 } := by
  unfold tryLaneEmpty at hs
  split at hs
  next hph => exact ⟨hph.1, hph.2, (Option.some_inj.mp hs).symm⟩
  next => exact absurd hs (by simp)

/-- Inversion of `tryAcquireCount`. -/
lemma tryAcquireCount_some {s s' : SysState} {v : WhichInv}
    (hs : tryAcquireCount s v = some s') :
    ∃ p, (s.get v).phase = .acqCount p ∧ s.countSem ≠ 0 ∧
      s' = { s.set v { s.get v with phase := .acqLocal p } with countSem := s.countSem - 1 } := by
  unfold tryAcquireCount at hs
  split at hs
  next p hph =>
    split at hs
    next hc => exact ⟨p, hph, hc, (Option.some_inj.mp hs).symm⟩
    next => exact absurd hs (by simp)
  next => exact absurd hs (by simp)

/-- Inversion of `tryAcquireLocal`. -/
lemma tryAcquireLocal_some {s s' : SysState} {v : WhichInv}
    (hs : tryAcquireLocal s v = some s') :
    ∃ p, (s.get v).phase = .acqLocal p ∧ (s.get v).localSem ≠ 0 ∧
      s' = s.set v
        { s.get v with phase := .acqOrder p, localSem := (s.get v).localSem - 1 } := by
  unfold tryAcquireLocal at hs
  split at hs
  next p hph =>
    split at hs
    next hc => exact ⟨p, hph, hc, (Option.some_inj.mp hs).symm⟩
    next => exact absurd hs (by simp)
  next => exact absurd hs (by simp)

/-- Inversion of `tryAcquireOrder`. -/
lemma tryAcquireOrder_some {s s' : SysState} {v : WhichInv}
    (hs : tryAcquireOrder s v = some s') :
    ∃ p, (s.get v).phase = .acqOrder p ∧ s.orderSem ≠ 0 ∧
      s' = { (s.set v
          { s.get v with
            phase := .reading
            tasks := (s.get v).tasks ++ [{ payload := p, phase := .queued }] }) with
        orderSem := s.orderSem - 1 } := by
  unfold tryAcquireOrder at hs
  split at hs
  next p hph =>
    split at hs
    next hc => exact ⟨p, hph, hc, (Option.some_inj.mp hs).symm⟩
    next => exact absurd hs (by simp)
  next => exact absurd hs (by simp)

/-- Inversion of `tryDrainAcquire`. -/
lemma tryDrainAcquire_some {s s' : SysState} {v : WhichInv}
    (hs : tryDrainAcquire s v = some s') :
    (s.get v).localSem ≠ 0 ∧
      (((s.get v).phase = .drain0 ∧ s' = s.set v
          { s.get v with phase := .drain1, localSem := (s.get v).localSem - 1 })
        ∨ ((s.get v).phase = .drain1 ∧ s' = s.set v
          { s.get v with phase := .done, localSem := (s.get v).localSem - 1 })) := by
  unfold tryDrainAcquire at hs
  split at hs
  next hph =>
    split at hs
    next hc => exact ⟨hc, Or.inl ⟨hph, (Option.some_inj.mp hs).symm⟩⟩
    next => exact absurd hs (by simp)
  next =>
    split at hs
    next hph =>
      split at hs
      next hc => exact ⟨hc, Or.inr ⟨hph, (Option.some_inj.mp hs).symm⟩⟩
      next => exact absurd hs (by simp)
    next => exact absurd hs (by simp)

/-- Inversion of `trySignalOrder`. -/
lemma trySignalOrder_some {s s' : SysState} {v : WhichInv} {i : Nat}
    (hs : trySignalOrder s v i = some s') :
    ∃ t, (s.get v).tasks[i]? = some t ∧ t.phase = .runningPre ∧
      s' = { (s.set v { s.get v with
          tasks := (s.get v).tasks.set i { t with phase := .runningPost } }) with
        orderSem := s.orderSem + 1 } := by
  unfold trySignalOrder at hs
  cases hst : stepTask s v i .runningPre .runningPost with
  | none => rw [hst] at hs; exact absurd hs (by simp)
  | some s1 =>
    rw [hst] at hs
    obtain ⟨t, hget, hp, h1⟩ := stepTask_some hst
    subst h1
    simp only [Option.map_some'] at hs
    exact ⟨t, hget, hp, (Option.some_inj.mp hs).symm⟩

/-- Inversion of `tryReleaseLocal`. -/
lemma tryReleaseLocal_some {s s' : SysState} {v : WhichInv} {i : Nat}
    (hs : tryReleaseLocal s v i = some s') :
    ∃ t, (s.get v).tasks[i]? = some t ∧ t.phase = .returned ∧
      s' = s.set v { s.get v with
        tasks := (s.get v).tasks.set i { t with phase := .releasedLocal },
        localSem := (s.get v).localSem + 1 } := by
  unfold tryReleaseLocal at hs
  cases hst : stepTask s v i .returned .releasedLocal with
  | none => rw [hst] at hs; exact absurd hs (by simp)
  | some s1 =>
    rw [hst] at hs
    obtain ⟨t, hget, hp, h1⟩ := stepTask_some hst
    subst h1
    simp only [Option.map_some'] at hs
    refine ⟨t, hget, hp, ?_⟩
    rw [← Option.some_inj.mp hs]
    cases v <;> rfl

/-- Inversion of `tryReleaseCount`. -/
lemma tryReleaseCount_some {s s' : SysState} {v : WhichInv} {i : Nat}
    (hs : tryReleaseCount s v i = some s') :
    ∃ t, (s.get v).tasks[i]? = some t ∧ t.phase = .releasedLocal ∧
      s' = { (s.set v { s.get v with
          tasks := (s.get v).tasks.set i { t with phase := .finished } }) with
        countSem := s.countSem + 1 } := by
  unfold tryReleaseCount at hs
  cases hst : stepTask s v i .releasedLocal .finished with
  | none => rw [hst] at hs; exact absurd hs (by simp)
  | some s1 =>
    rw [hst] at hs
    obtain ⟨t, hget, hp, h1⟩ := stepTask_some hst
    subst h1
    simp only [Option.map_some'] at hs
    exact ⟨t, hget, hp, (Option.some_inj.mp hs).symm⟩

/-- Inversion of `tryFault`. -/
lemma tryFault_some {s s' : SysState} {v : WhichInv} {i : Nat}
    (hs : tryFault s v i = some s') :
    ∃ t p1, (s.get v).tasks[i]? = some t ∧
      ((t.phase = .runningPre ∧ p1 = .faultedPre)
        ∨ (t.phase = .runningPost ∧ p1 = .faultedPost)) ∧
      s' = s.set v { s.get v with tasks := (s.get v).tasks.set i { t with phase := p1 } } := by
  unfold tryFault at hs
  cases hst : stepTask s v i .runningPre .faultedPre with
  | some s1 =>
    rw [hst] at hs
    obtain rfl := Option.some_inj.mp hs
    obtain ⟨t, hget, hp, h1⟩ := stepTask_some hst
    exact ⟨t, .faultedPre, hget, Or.inl ⟨hp, rfl⟩, h1⟩
  | none =>
    rw [hst] at hs
    obtain ⟨t, hget, hp, h1⟩ := stepTask_some hs
    exact ⟨t, .faultedPost, hget, Or.inr ⟨hp, rfl⟩, h1⟩

/-- Replacing one invocation's state without touching its task list leaves
every invocation's task list unchanged. -/
lemma get_tasks_set {s : SysState} {w : WhichInv} {iv : InvState} (v : WhichInv)
    (htasks : iv.tasks = (s.get w).tasks) : ((s.set w iv).get v).tasks = (s.get v).tasks := by
  cases w <;> cases v <;> simp [htasks]

/-- How one step can affect the work item in slot `i` of invocation `v`:
either the slot is untouched, or the step is this invocation's
`acquireOrder` newly filling the slot with a queued item, or the step is one
of the six work-item transitions on exactly this slot. -/
lemma task_evolution {s s' : SysState} {l : Label} (hs : stepFn s l = some s')
    (v : WhichInv) (i : Nat) :
    ((s'.get v).tasks[i]? = (s.get v).tasks[i]?) ∨
    ((s.get v).tasks[i]? = none ∧ l = .acquireOrder v ∧
       ∃ p, (s'.get v).tasks[i]? = some { payload := p, phase := .queued }) ∨
    (∃ t p1, (s.get v).tasks[i]? = some t ∧
       (s'.get v).tasks[i]? = some { t with phase := p1 } ∧
       ((l = .startTask v i ∧ t.phase = .queued ∧ p1 = .runningPre) ∨
        (l = .signalOrder v i ∧ t.phase = .runningPre ∧ p1 = .runningPost) ∨
        (l = .returnTask v i ∧ t.phase = .runningPost ∧ p1 = .returned) ∨
        (l = .releaseLocal v i ∧ t.phase = .returned ∧ p1 = .releasedLocal) ∨
        (l = .releaseCount v i ∧ t.phase = .releasedLocal ∧ p1 = .finished) ∨
        (l = .fault v i ∧ (t.phase = .runningPre ∧ p1 = .faultedPre ∨
                           t.phase = .runningPost ∧ p1 = .faultedPost)))) := by
  have setCase : ∀ (w : WhichInv) (j : Nat) (t : TaskState) (p1 : TaskPhase),
      (s.get w).tasks[j]? = some t →
      (s' = s.set w { s.get w with tasks := (s.get w).tasks.set j { t with phase := p1 } }
        ∨ ∃ n m, s' = { (s.set w { s.get w with
            tasks := (s.get w).tasks.set j { t with phase := p1 } }) with
            countSem := n, orderSem := m }
        ∨ s' = s.set w { s.get w with
            tasks := (s.get w).tasks.set j { t with phase := p1 },
            localSem := (s.get w).localSem + 1 }) →
      (w = v ∧ j = i ∧ (s'.get v).tasks[i]? = some { t with phase := p1 }) ∨
        (s'.get v).tasks[i]? = (s.get v).tasks[i]? := by
    intro w j t p1 hget hs'
    by_cases hwv : w = v
    · subst hwv
      by_cases hji : j = i
      · subst hji
        have hlt := (List.getElem?_eq_some.mp hget).1
        have : ((s.get w).tasks.set j { t with phase := p1 })[j]? = some { t with phase := p1 } :=
          List.getElem?_set_eq_of_lt _ (by simpa using hlt)
        rcases hs' with rfl | ⟨n, m, rfl | rfl⟩ <;>
          exact Or.inl ⟨rfl, rfl, by cases w <;> simpa using this⟩
      · have : ((s.get w).tasks.set j { t with phase := p1 })[i]? = (s.get w).tasks[i]? :=
          List.getElem?_set_ne hji
        rcases hs' with rfl | ⟨n, m, rfl | rfl⟩ <;>
          exact Or.inr (by cases w <;> simpa using this)
    · rcases hs' with rfl | ⟨n, m, rfl | rfl⟩ <;>
        exact Or.inr (by cases w <;> cases v <;> simp_all)
  cases l with
  | invoke w =>
    obtain ⟨hph, rfl⟩ := tryInvoke_some hs
    exact Or.inl (by cases w <;> cases v <;> simp)
  | acquireLane w =>
    obtain ⟨hph, hls, rfl⟩ := tryAcquireLane_some hs
    exact Or.inl (by cases w <;> cases v <;> simp)
  | readChunk w =>
    obtain ⟨p, rest, hph, hrem, rfl⟩ := tryReadChunk_some hs
    exact Or.inl (by cases w <;> cases v <;> simp)
  | laneEmpty w =>
    obtain ⟨hph, hrem, rfl⟩ := tryLaneEmpty_some hs
    exact Or.inl (by cases w <;> cases v <;> simp)
  | acquireCount w =>
    obtain ⟨p, hph, hc, rfl⟩ := tryAcquireCount_some hs
    exact Or.inl (by cases w <;> cases v <;> simp)
  | acquireLocal w =>
    obtain ⟨p, hph, hc, rfl⟩ := tryAcquireLocal_some hs
    exact Or.inl (by cases w <;> cases v <;> simp)
  | acquireOrder w =>
    obtain ⟨p, hph, hc, hs'⟩ := tryAcquireOrder_some hs
    by_cases hwv : w = v
    · subst hwv
      have htasks : (s'.get w).tasks
          = (s.get w).tasks ++ [{ payload := p, phase := .queued }] := by
        rw [hs']; cases w <;> simp
      rcases Nat.lt_trichotomy i (s.get w).tasks.length with hlt | heq | hgt
      · refine Or.inl ?_
        rw [htasks, List.getElem?_append, if_pos hlt]
      · subst heq
        refine Or.inr (Or.inl ⟨List.getElem?_eq_none (by omega), rfl, p, ?_⟩)
        rw [htasks, List.getElem?_concat_length]
      · refine Or.inl ?_
        have h1 : ((s.get w).tasks ++ [{ payload := p, phase := TaskPhase.queued }])[i]?
            = none := List.getElem?_eq_none
              (by simp only [List.length_append, List.length_singleton]; omega)
        have h2 : (s.get w).tasks[i]? = none := List.getElem?_eq_none (by omega)
        rw [htasks, h1, h2]
    · refine Or.inl ?_
      have htasks : (s'.get v).tasks = (s.get v).tasks := by
        rw [hs']
        cases w <;> cases v <;> first | exact absurd rfl hwv | simp
      rw [htasks]
  | drainAcquire w =>
    obtain ⟨hc, h01⟩ := tryDrainAcquire_some hs
    rcases h01 with ⟨hph, rfl⟩ | ⟨hph, rfl⟩ <;> exact Or.inl (by cases w <;> cases v <;> simp)
  | startTask w j =>
    obtain ⟨t, hget, hp, rfl⟩ := stepTask_some hs
    rcases setCase w j t .runningPre hget (Or.inl rfl) with ⟨rfl, rfl, hnew⟩ | hsame
    · exact Or.inr (Or.inr ⟨t, .runningPre, hget, hnew, Or.inl ⟨rfl, hp, rfl⟩⟩)
    · exact Or.inl hsame
  | signalOrder w j =>
    obtain ⟨t, hget, hp, rfl⟩ := trySignalOrder_some hs
    rcases setCase w j t .runningPost hget (Or.inr ⟨s.countSem, s.orderSem + 1, Or.inl (by cases w <;> rfl)⟩)
        with ⟨rfl, rfl, hnew⟩ | hsame
    · exact Or.inr (Or.inr ⟨t, .runningPost, hget, hnew, Or.inr (Or.inl ⟨rfl, hp, rfl⟩)⟩)
    · exact Or.inl hsame
  | returnTask w j =>
    obtain ⟨t, hget, hp, rfl⟩ := stepTask_some hs
    rcases setCase w j t .returned hget (Or.inl rfl) with ⟨rfl, rfl, hnew⟩ | hsame
    · exact Or.inr (Or.inr ⟨t, .returned, hget, hnew,
        Or.inr (Or.inr (Or.inl ⟨rfl, hp, rfl⟩))⟩)
    · exact Or.inl hsame
  | releaseLocal w j =>
    obtain ⟨t, hget, hp, rfl⟩ := tryReleaseLocal_some hs
    rcases setCase w j t .releasedLocal hget (Or.inr ⟨0, 0, Or.inr (by cases w <;> rfl)⟩)
        with ⟨rfl, rfl, hnew⟩ | hsame
    · exact Or.inr (Or.inr ⟨t, .releasedLocal, hget, hnew,
        Or.inr (Or.inr (Or.inr (Or.inl ⟨rfl, hp, rfl⟩)))⟩)
    · exact Or.inl hsame
  | releaseCount w j =>
    obtain ⟨t, hget, hp, rfl⟩ := tryReleaseCount_some hs
    rcases setCase w j t .finished hget (Or.inr ⟨s.countSem + 1, s.orderSem, Or.inl (by cases w <;> rfl)⟩)
        with ⟨rfl, rfl, hnew⟩ | hsame
    · exact Or.inr (Or.inr ⟨t, .finished, hget, hnew,
        Or.inr (Or.inr (Or.inr (Or.inr (Or.inl ⟨rfl, hp, rfl⟩))))⟩)
    · exact Or.inl hsame
  | fault w j =>
    obtain ⟨t, p1, hget, hp, rfl⟩ := tryFault_some hs
    rcases setCase w j t p1 hget (Or.inl rfl) with ⟨rfl, rfl, hnew⟩ | hsame
    · exact Or.inr (Or.inr ⟨t, p1, hget, hnew,
        Or.inr (Or.inr (Or.inr (Or.inr (Or.inr ⟨rfl, hp⟩))))⟩)
    · exact Or.inl hsame

/-! ### Trace combinators -/

/-- Running a concatenated schedule is running one after the other. -/
lemma run_append (s : SysState) (t1 t2 : List Label) :
    run s (t1 ++ t2) = (run s t1).bind (fun s1 => run s1 t2) := by
  induction t1 generalizing s with
  | nil => rfl
  | cons l ls ih =>
    cases hst : stepFn s l with
    | none => simp [run, hst]
    | some s1 => simp [run, hst, ih s1]

/-- A successful run factors at any position of its schedule. -/
lemma run_get_step {s0 s : SysState} {tr : List Label} {j : Nat} {l : Label}
    (hr : run s0 tr = some s) (hj : tr[j]? = some l) :
    ∃ s1 s2, run s0 (tr.take j) = some s1 ∧ stepFn s1 l = some s2 ∧
      run s2 (tr.drop (j + 1)) = some s := by
  have hlt : j < tr.length := (List.getElem?_eq_some.mp hj).1
  have hsplit : tr = tr.take j ++ (l :: tr.drop (j + 1)) := by
    conv_lhs => rw [← List.take_append_drop j tr]
    rw [List.drop_eq_getElem_cons hlt, (List.getElem?_eq_some.mp hj).2]
  rw [hsplit, run_append] at hr
  cases h1 : run s0 (tr.take j) with
  | none => rw [h1] at hr; exact absurd hr (by simp)
  | some s1 =>
    rw [h1] at hr
    simp only [Option.some_bind] at hr
    unfold run at hr
    cases h2 : stepFn s1 l with
    | none => rw [h2] at hr; exact absurd hr (by simp)
    | some s2 =>
      rw [h2] at hr
      exact ⟨s1, s2, rfl, h2, hr⟩

/-- A phase property closed under `TransStep` persists across one step. -/
lemma task_persist_step {s s' : SysState} {l : Label} {v : WhichInv} {i : Nat} {t : TaskState}
    {P : TaskPhase → Bool} (hs : stepFn s l = some s')
    (hget : (s.get v).tasks[i]? = some t) (hP : P t.phase = true)
    (hclosed : ∀ p0 p1, TransStep p0 p1 → P p0 = true → P p1 = true) :
    ∃ t', (s'.get v).tasks[i]? = some t' ∧ P t'.phase = true := by
  rcases task_evolution hs v i with hsame | ⟨hnone, _, _⟩ | ⟨t0, p1, hget0, hnew, hcase⟩
  · exact ⟨t, by rw [hsame, hget], hP⟩
  · rw [hnone] at hget; exact absurd hget (by simp)
  · rw [hget0] at hget
    obtain rfl := Option.some_inj.mp hget
    refine ⟨{ t0 with phase := p1 }, hnew, hclosed t0.phase p1 ?_ hP⟩
    rcases hcase with ⟨_, h, h'⟩ | ⟨_, h, h'⟩ | ⟨_, h, h'⟩ | ⟨_, h, h'⟩ | ⟨_, h, h'⟩ | ⟨_, h⟩
    · exact Or.inl ⟨h, h'⟩
    · exact Or.inr (Or.inl ⟨h, h'⟩)
    · exact Or.inr (Or.inr (Or.inl ⟨h, h'⟩))
    · exact Or.inr (Or.inr (Or.inr (Or.inl ⟨h, h'⟩)))
    · exact Or.inr (Or.inr (Or.inr (Or.inr (Or.inl ⟨h, h'⟩))))
    · rcases h with ⟨h, h'⟩ | ⟨h, h'⟩
      · exact Or.inr (Or.inr (Or.inr (Or.inr (Or.inr (Or.inl ⟨h, h'⟩)))))
      · exact Or.inr (Or.inr (Or.inr (Or.inr (Or.inr (Or.inr ⟨h, h'⟩)))))

/-- A phase property closed under `TransStep` persists across a whole run. -/
lemma task_persist_run {s0 s : SysState} {tr : List Label} {v : WhichInv} {i : Nat}
    {t : TaskState} {P : TaskPhase → Bool} (hr : run s0 tr = some s)
    (hget : (s0.get v).tasks[i]? = some t) (hP : P t.phase = true)
    (hclosed : ∀ p0 p1, TransStep p0 p1 → P p0 = true → P p1 = true) :
    ∃ t', (s.get v).tasks[i]? = some t' ∧ P t'.phase = true := by
  induction tr generalizing s0 t with
  | nil => cases hr; exact ⟨t, hget, hP⟩
  | cons l ls ih =>
    unfold run at hr
    cases hst : stepFn s0 l with
    | none => rw [hst] at hr; exact absurd hr (by simp)
    | some s1 =>
      rw [hst] at hr
      obtain ⟨t1, hget1, hP1⟩ := task_persist_step hst hget hP hclosed
      exact ih hr hget1 hP1

/-- If a step turns slot `i` of invocation `v` into a signalled work item
while it was not signalled (or absent) before, that step is this work item's
order-semaphore release. -/
lemma signal_blame {s s' : SysState} {l : Label} {v : WhichInv} {i : Nat} {t' : TaskState}
    (hs : stepFn s l = some s')
    (hbef : ∀ t, (s.get v).tasks[i]? = some t → t.phase.signaled = false)
    (hnew : (s'.get v).tasks[i]? = some t') (hsig : t'.phase.signaled = true) :
    l = .signalOrder v i := by
  rcases task_evolution hs v i with hsame | ⟨hnone, _, p, hq⟩ | ⟨t0, p1, hget0, hnew0, hcase⟩
  · rw [hsame] at hnew
    rw [hbef t' hnew] at hsig
    exact absurd hsig (by decide)
  · rw [hq] at hnew
    obtain rfl := Option.some_inj.mp hnew
    exact absurd hsig (by simp)
  · rw [hnew0] at hnew
    obtain rfl := Option.some_inj.mp hnew
    have hb := hbef t0 hget0
    rcases hcase with ⟨hl, h, h'⟩ | ⟨hl, h, h'⟩ | ⟨hl, h, h'⟩ | ⟨hl, h, h'⟩ | ⟨hl, h, h'⟩
      | ⟨hl, ⟨h, h'⟩ | ⟨h, h'⟩⟩
    · subst h'; simp at hsig
    · exact hl
    · rw [h] at hb; exact absurd hb (by decide)
    · rw [h] at hb; exact absurd hb (by decide)
    · rw [h] at hb; exact absurd hb (by decide)
    · subst h'; simp at hsig
    · rw [h] at hb; exact absurd hb (by decide)

/-- If a run ends with slot `i` of invocation `v` signalled while it was not
signalled (or absent) at the start, the schedule contains this work item's
order-semaphore release. -/
lemma signal_mem_run {s0 s : SysState} {tr : List Label} {v : WhichInv} {i : Nat}
    {t' : TaskState} (hr : run s0 tr = some s)
    (hbef : ∀ t, (s0.get v).tasks[i]? = some t → t.phase.signaled = false)
    (hnew : (s.get v).tasks[i]? = some t') (hsig : t'.phase.signaled = true) :
    Label.signalOrder v i ∈ tr := by
  induction tr generalizing s0 with
  | nil =>
    cases hr
    rw [hbef t' hnew] at hsig
    exact absurd hsig (by decide)
  | cons l ls ih =>
    unfold run at hr
    cases hst : stepFn s0 l with
    | none => rw [hst] at hr; exact absurd hr (by simp)
    | some s1 =>
      rw [hst] at hr
      cases hget1 : (s1.get v).tasks[i]? with
      | none =>
        refine List.mem_cons_of_mem _ (ih hr ?_)
        intro t ht; rw [hget1] at ht; exact absurd ht (by simp)
      | some t1 =>
        by_cases hsig1 : t1.phase.signaled = true
        · have := signal_blame hst hbef hget1 hsig1
          subst this
          exact List.mem_cons_self _ _
        · refine List.mem_cons_of_mem _ (ih hr ?_)
          intro t ht; rw [hget1] at ht
          obtain rfl := Option.some_inj.mp ht
          simpa using hsig1

/-- Once started, a work item stays started. -/
lemma transStep_started {p0 p1 : TaskPhase} (h : TransStep p0 p1)
    (hp : p0.isStarted = true) : p1.isStarted = true := by
  rcases h with ⟨_, h1⟩ | ⟨_, h1⟩ | ⟨_, h1⟩ | ⟨_, h1⟩ | ⟨_, h1⟩ | ⟨_, h1⟩ | ⟨_, h1⟩ <;>
    subst h1 <;> rfl

/-- Once signalled, a work item stays signalled. -/
lemma transStep_signaled {p0 p1 : TaskPhase} (h : TransStep p0 p1)
    (hp : p0.signaled = true) : p1.signaled = true := by
  rcases h with ⟨h0, h1⟩ | ⟨h0, h1⟩ | ⟨h0, h1⟩ | ⟨h0, h1⟩ | ⟨h0, h1⟩ | ⟨h0, h1⟩ | ⟨h0, h1⟩ <;>
    subst h1 <;> first | rfl | (subst h0; simp at hp)

/-- A faulted work item stays faulted forever: no transition leaves the
faulted phases. -/
lemma transStep_faulted {p0 p1 : TaskPhase} (h : TransStep p0 p1)
    (hp : p0.isFaulted = true) : p1.isFaulted = true := by
  rcases h with ⟨h0, h1⟩ | ⟨h0, h1⟩ | ⟨h0, h1⟩ | ⟨h0, h1⟩ | ⟨h0, h1⟩ | ⟨h0, h1⟩ | ⟨h0, h1⟩ <;>
    subst h0 <;> simp at hp

/-- If a step turns slot `i` of invocation `v` into a started work item while
it was queued or absent before, that step is this work item's callback
start. -/
lemma start_blame {s s' : SysState} {l : Label} {v : WhichInv} {i : Nat} {t' : TaskState}
    (hs : stepFn s l = some s')
    (hbef : ∀ t, (s.get v).tasks[i]? = some t → t.phase.isStarted = false)
    (hnew : (s'.get v).tasks[i]? = some t') (hsig : t'.phase.isStarted = true) :
    l = .startTask v i := by
  rcases task_evolution hs v i with hsame | ⟨hnone, _, p, hq⟩ | ⟨t0, p1, hget0, hnew0, hcase⟩
  · rw [hsame] at hnew
    rw [hbef t' hnew] at hsig
    exact absurd hsig (by decide)
  · rw [hq] at hnew
    obtain rfl := Option.some_inj.mp hnew
    exact absurd hsig (by simp)
  · rw [hnew0] at hnew
    obtain rfl := Option.some_inj.mp hnew
    have hb := hbef t0 hget0
    rcases hcase with ⟨hl, h, h'⟩ | ⟨hl, h, h'⟩ | ⟨hl, h, h'⟩ | ⟨hl, h, h'⟩ | ⟨hl, h, h'⟩
      | ⟨hl, ⟨h, h'⟩ | ⟨h, h'⟩⟩
    · exact hl
    · rw [h] at hb; exact absurd hb (by decide)
    · rw [h] at hb; exact absurd hb (by decide)
    · rw [h] at hb; exact absurd hb (by decide)
    · rw [h] at hb; exact absurd hb (by decide)
    · rw [h] at hb; exact absurd hb (by decide)
    · rw [h] at hb; exact absurd hb (by decide)

/-- If a run ends with slot `i` of invocation `v` started while it was
queued or absent at the start, the schedule contains this work item's
callback start. -/
lemma start_mem_run {s0 s : SysState} {tr : List Label} {v : WhichInv} {i : Nat}
    {t' : TaskState} (hr : run s0 tr = some s)
    (hbef : ∀ t, (s0.get v).tasks[i]? = some t → t.phase.isStarted = false)
    (hnew : (s.get v).tasks[i]? = some t') (hsig : t'.phase.isStarted = true) :
    Label.startTask v i ∈ tr := by
  induction tr generalizing s0 with
  | nil =>
    cases hr
    rw [hbef t' hnew] at hsig
    exact absurd hsig (by decide)
  | cons l ls ih =>
    unfold run at hr
    cases hst : stepFn s0 l with
    | none => rw [hst] at hr; exact absurd hr (by simp)
    | some s1 =>
      rw [hst] at hr
      cases hget1 : (s1.get v).tasks[i]? with
      | none =>
        refine List.mem_cons_of_mem _ (ih hr ?_)
        intro t ht; rw [hget1] at ht; exact absurd ht (by simp)
      | some t1 =>
        by_cases hsig1 : t1.phase.isStarted = true
        · have := start_blame hst hbef hget1 hsig1
          subst this
          exact List.mem_cons_self _ _
        · refine List.mem_cons_of_mem _ (ih hr ?_)
          intro t ht; rw [hget1] at ht
          obtain rfl := Option.some_inj.mp ht
          simpa using hsig1

/-- After a work item has started, its start label can never occur again. -/
lemma startTask_not_mem {s0 s : SysState} {tr : List Label} {v : WhichInv} {i : Nat}
    {t : TaskState} (hr : run s0 tr = some s)
    (hget : (s0.get v).tasks[i]? = some t) (hst : t.phase.isStarted = true) :
    Label.startTask v i ∉ tr := by
  induction tr generalizing s0 t with
  | nil => simp
  | cons l ls ih =>
    unfold run at hr
    cases hstep : stepFn s0 l with
    | none => rw [hstep] at hr; exact absurd hr (by simp)
    | some s1 =>
      rw [hstep] at hr
      intro hmem
      rcases List.mem_cons.mp hmem with heq | hmem'
      · subst heq
        obtain ⟨t2, hget2, hp2, _⟩ := stepTask_some hstep
        rw [hget] at hget2
        obtain rfl := Option.some_inj.mp hget2
        rw [hp2] at hst
        exact absurd hst (by decide)
      · obtain ⟨t1, hget1, hst1⟩ := task_persist_step hstep hget hst
          (fun p0 p1 h hp => transStep_started h hp)
        exact absurd hmem' (ih hr hget1 hst1)

/-- A work-item slot that is queued or absent stays so under any step other
than its own callback start. -/
lemma unstarted_step {s s' : SysState} {l : Label} {v : WhichInv} {i : Nat}
    (hs : stepFn s l = some s') (hl : l ≠ .startTask v i)
    (hbef : ∀ t, (s.get v).tasks[i]? = some t → t.phase.isStarted = false) :
    ∀ t', (s'.get v).tasks[i]? = some t' → t'.phase.isStarted = false := by
  intro t' hnew
  by_cases hst : t'.phase.isStarted = true
  · exact absurd (start_blame hs hbef hnew hst) hl
  · simpa using hst

/-- A work item starts at most once in any run from a state where its slot
is still queued or absent. -/
lemma startCount_le_one {s0 s : SysState} {tr : List Label} {v : WhichInv} {i : Nat}
    (hr : run s0 tr = some s)
    (hbef : ∀ t, (s0.get v).tasks[i]? = some t → t.phase.isStarted = false) :
    tr.count (Label.startTask v i) ≤ 1 := by
  induction tr generalizing s0 with
  | nil => simp
  | cons l ls ih =>
    unfold run at hr
    cases hstep : stepFn s0 l with
    | none => rw [hstep] at hr; exact absurd hr (by simp)
    | some s1 =>
      rw [hstep] at hr
      by_cases hl : l = Label.startTask v i
      · subst hl
        obtain ⟨t2, hget2, hp2, hs1⟩ := stepTask_some hstep
        have hstarted : ∃ t1, (s1.get v).tasks[i]? = some t1 ∧ t1.phase.isStarted = true := by
          subst hs1
          refine ⟨{ t2 with phase := .runningPre }, ?_, rfl⟩
          have hlt := (List.getElem?_eq_some.mp hget2).1
          cases v <;> simpa using List.getElem?_set_eq_of_lt _ hlt
        obtain ⟨t1, hget1, hst1⟩ := hstarted
        have hnot := startTask_not_mem hr hget1 hst1
        rw [List.count_cons]
        simp [List.count_eq_zero.mpr hnot]
      · rw [List.count_cons]
        have := ih hr (unstarted_step hstep hl hbef)
        simp only [beq_iff_eq]
        rw [if_neg hl]
        omega

/-- Steps of one invocation do not change the other invocation's state. -/
lemma step_other_inv {s s' : SysState} {l : Label} (hs : stepFn s l = some s')
    {v : WhichInv} (hwho : l.who ≠ v) : s'.get v = s.get v := by
  cases l with
  | invoke w =>
    obtain ⟨_, rfl⟩ := tryInvoke_some hs
    cases w <;> cases v <;> first | exact absurd rfl hwho | rfl
  | acquireLane w =>
    obtain ⟨_, _, rfl⟩ := tryAcquireLane_some hs
    cases w <;> cases v <;> first | exact absurd rfl hwho | rfl
  | readChunk w =>
    obtain ⟨p, rest, _, _, rfl⟩ := tryReadChunk_some hs
    cases w <;> cases v <;> first | exact absurd rfl hwho | rfl
  | laneEmpty w =>
    obtain ⟨_, _, rfl⟩ := tryLaneEmpty_some hs
    cases w <;> cases v <;> first | exact absurd rfl hwho | rfl
  | acquireCount w =>
    obtain ⟨p, _, _, rfl⟩ := tryAcquireCount_some hs
    cases w <;> cases v <;> first | exact absurd rfl hwho | rfl
  | acquireLocal w =>
    obtain ⟨p, _, _, rfl⟩ := tryAcquireLocal_some hs
    cases w <;> cases v <;> first | exact absurd rfl hwho | rfl
  | acquireOrder w =>
    obtain ⟨p, _, _, rfl⟩ := tryAcquireOrder_some hs
    cases w <;> cases v <;> first | exact absurd rfl hwho | rfl
  | drainAcquire w =>
    obtain ⟨_, h01⟩ := tryDrainAcquire_some hs
    rcases h01 with ⟨_, rfl⟩ | ⟨_, rfl⟩ <;>
      cases w <;> cases v <;> first | exact absurd rfl hwho | rfl
  | startTask w j =>
    obtain ⟨t, _, _, rfl⟩ := stepTask_some hs
    cases w <;> cases v <;> first | exact absurd rfl hwho | rfl
  | signalOrder w j =>
    obtain ⟨t, _, _, rfl⟩ := trySignalOrder_some hs
    cases w <;> cases v <;> first | exact absurd rfl hwho | rfl
  | returnTask w j =>
    obtain ⟨t, _, _, rfl⟩ := stepTask_some hs
    cases w <;> cases v <;> first | exact absurd rfl hwho | rfl
  | releaseLocal w j =>
    obtain ⟨t, _, _, rfl⟩ := tryReleaseLocal_some hs
    cases w <;> cases v <;> first | exact absurd rfl hwho | rfl
  | releaseCount w j =>
    obtain ⟨t, _, _, rfl⟩ := tryReleaseCount_some hs
    cases w <;> cases v <;> first | exact absurd rfl hwho | rfl
  | fault w j =>
    obtain ⟨t, p1, _, _, rfl⟩ := tryFault_some hs
    cases w <;> cases v <;> first | exact absurd rfl hwho | rfl

/-- A run whose schedule never mentions invocation `v` leaves `v`'s state
unchanged. -/
lemma run_other_inv {s0 s : SysState} {tr : List Label} {v : WhichInv}
    (hr : run s0 tr = some s) (hwho : ∀ l ∈ tr, l.who ≠ v) : s.get v = s0.get v := by
  induction tr generalizing s0 with
  | nil => cases hr; rfl
  | cons l ls ih =>
    unfold run at hr
    cases hstep : stepFn s0 l with
    | none => rw [hstep] at hr; exact absurd hr (by simp)
    | some s1 =>
      rw [hstep] at hr
      rw [ih hr (fun x hx => hwho x (List.mem_cons_of_mem _ hx)),
        step_other_inv hstep (hwho l (List.mem_cons_self _ _))]

/-! ### The claims -/

/-- C1: within one `Process` invocation, for every chunk index `i`, the
callback for chunk `i + 1` starts strictly after the callback for chunk `i`
has released (signalled) the order semaphore passed to it: in every valid
schedule, any occurrence of `startTask v (i+1)` is preceded by an occurrence
of `signalOrder v i`.  The coordinator acquires the order semaphore before
emplacing each work item, which is what makes the start wait for the
previous signal. -/
theorem claim_C1 (cA cB : List Nat) (tr : List Label) (s : SysState) (v : WhichInv)
    (i j : Nat) (hr : Exec cA cB tr s)
    (hj : tr[j]? = some (.startTask v (i + 1))) :
    ∃ k, k < j ∧ tr[k]? = some (.signalOrder v i) := by
  obtain ⟨s1, s2, h1, h2, _⟩ := run_get_step hr hj
  obtain ⟨t, hget, hp, _⟩ := stepTask_some h2
  have hinv := sysInv_run h1
  have hlen := (List.getElem?_eq_some.mp hget).1
  have hi : i < (s1.get v).tasks.length := by omega
  have hgeti : (s1.get v).tasks[i]? = some ((s1.get v).tasks[i]) := List.getElem?_eq_getElem hi
  have hsig : ((s1.get v).tasks[i]).phase.signaled = true := by
    cases v
    · exact hinv.locA.2.2.1 i _ t hgeti hget
    · exact hinv.locB.2.2.1 i _ t hgeti hget
  have hmem : Label.signalOrder v i ∈ tr.take j := by
    refine signal_mem_run h1 ?_ hgeti hsig
    intro t0 ht0
    cases v <;> simp [initState] at ht0
  obtain ⟨k, hk⟩ := List.mem_iff_getElem?.mp hmem
  have hkj : k < j := by
    by_contra hc
    rw [List.getElem?_take, if_neg (by omega)] at hk
    exact absurd hk (by simp)
  refine ⟨k, hkj, ?_⟩
  rw [List.getElem?_take, if_pos hkj] at hk
  exact hk

/-- C2: at every instant, the number of callbacks that are mid-execution
(started but not yet returned), summed over the two concurrently allowed
`Process` invocations of one instance, is at most 2 — every mid-execution
callback holds one unit of the capacity-2 count semaphore, acquired before
its chunk was queued and released only after the callback returns. -/
theorem claim_C2 (cA cB : List Nat) (tr : List Label) (s : SysState)
    (hr : Exec cA cB tr s) :
    s.invA.midExecCount + s.invB.midExecCount ≤ 2 := by
  have hinv := sysInv_run hr
  have hmono : ∀ l : List TaskState,
      l.countP (fun t => t.phase.midExec) ≤ l.countP (fun t => t.phase.holdsCount) :=
    fun l => List.countP_mono_left (fun t _ h => by cases hp : t.phase <;> simp_all)
  have hc := hinv.countEq
  have h1 := hmono s.invA.tasks
  have h2 := hmono s.invB.tasks
  simp only [InvState.midExecCount, InvState.outstanding, InvState.countPh] at hc h1 h2 ⊢
  omega

/-- C3: whenever a `Process` invocation has returned (reached `done`, i.e.
passed the two final drain acquires on its invocation-local capacity-2
semaphore), the work items it queued carry exactly the `N` chunks of its
stream in order, and every one of those `N` callbacks has run to completion
— regardless of what the concurrent invocation did. -/
theorem claim_C3 (cA cB : List Nat) (tr : List Label) (s : SysState)
    (hr : Exec cA cB tr s) (hdone : s.invA.phase = .done) :
    s.invA.tasks.map TaskState.payload = cA ∧ s.invA.tasks.length = cA.length ∧
      ∀ t ∈ s.invA.tasks, t.phase.callbackDone = true := by
  have hinv := sysInv_run hr
  obtain ⟨a1, a2, a3, a4⟩ := hinv.locA
  have hrem : s.invA.remaining = [] := a4 (by rw [hdone]; rfl)
  rw [hdone, hrem] at a2
  simp only [CoordPhase.heldChunk, List.append_nil] at a2
  refine ⟨a2, by rw [← a2]; simp, ?_⟩
  rw [hdone] at a1
  simp only [CoordPhase.localHold, CoordPhase.drains] at a1
  have h0 : s.invA.localHeldTasks = 0 := by omega
  intro t ht
  have := List.countP_eq_zero.mp
    (by simpa [InvState.localHeldTasks, InvState.countPh] using h0) t ht
  cases hp : t.phase <;> simp_all

/-- C4: whenever invocation B's first callback has started (is in its
pre-signal window) and is not yet finished, invocation A has at most one
chunk outstanding (queued-but-not-finished): B's first work item itself
holds one unit of the capacity-2 count semaphore, leaving A at most one. -/
theorem claim_C4 (cA cB : List Nat) (tr : List Label) (s : SysState) (t0 : TaskState)
    (hr : Exec cA cB tr s) (hb0 : s.invB.tasks[0]? = some t0)
    (hph : t0.phase = .runningPre) :
    s.invA.outstanding ≤ 1 := by
  have hinv := sysInv_run hr
  have hc := hinv.countEq
  have h1 : 0 < s.invB.outstanding := by
    refine List.countP_pos.mpr ⟨t0, List.mem_iff_getElem?.mpr ⟨0, hb0⟩, ?_⟩
    simp [hph]
  omega

/-- C5, counterexample: the claim "given A over [a0,a1,a2] and B over
[b0,b1] started while A is still running, b0's callback does not start until
a2 is at least queued AND A1 HAS FINISHED" is false on the code.  In the
schedule `trC5`, B is invoked while A is still pulling its lane (after 6
labels, A is `reading` and far from `done`), yet at the moment b0's callback
starts, a1's callback is still mid-execution (`runningPost`): a1 released
the order semaphore early and a2 overtook it through the second overlap
slot, so the single count-semaphore unit freed by a2's completion — not
a1's — is the one b0 consumed. -/
theorem claim_C5_counterexample :
    ¬ (∀ (tr : List Label) (s sB : SysState) (j jB : Nat),
        run (initState [10, 20, 30] [40, 50]) tr = some s →
        tr[jB]? = some (.invoke .B) →
        run (initState [10, 20, 30] [40, 50]) (tr.take jB) = some sB →
        sB.invA.phase ≠ .done →
        tr[j]? = some (.startTask .B 0) → tr.take (j + 1) = tr →
        ∀ t1, s.invA.tasks[1]? = some t1 → t1.phase.callbackDone = true) := by
  intro h
  have h2 := h trC5 sC5 sC5mid 33 6 (by decide) (by decide) (by decide) (by decide)
    (by decide) (by decide) { payload := 20, phase := .runningPost } (by decide)
  exact absurd h2 (by decide)

/-- C5, amended: given invocation B started while A is still running, once
b0's callback starts (with A past its queuing loop, as the lane gate
forces when A ran first), A's last chunk is at least queued — A's queued
payloads are its whole stream — and at most one of A's chunks is still
outstanding.  (The original claim's "a1 has finished" is weakened to "at
most one of A's chunks remains outstanding", which is what the capacity-2
count semaphore actually enforces; a1 itself may be the one still
running.) -/
theorem claim_C5_amended (cA cB : List Nat) (tr : List Label) (s : SysState)
    (t0 : TaskState) (hr : Exec cA cB tr s) (hb0 : s.invB.tasks[0]? = some t0)
    (hph : t0.phase = .runningPre) (hAq : s.invA.phase.doneQueuing = true) :
    s.invA.tasks.map TaskState.payload = cA ∧ s.invA.outstanding ≤ 1 := by
  have hinv := sysInv_run hr
  obtain ⟨a1, a2, a3, a4⟩ := hinv.locA
  constructor
  · have hrem : s.invA.remaining = [] := a4 hAq
    have hheld : s.invA.phase.heldChunk = [] := by
      cases hp : s.invA.phase <;> simp_all
    rw [hrem, hheld] at a2
    simpa using a2
  · have hc := hinv.countEq
    have h1 : 0 < s.invB.outstanding := by
      refine List.countP_pos.mpr ⟨t0, List.mem_iff_getElem?.mpr ⟨0, hb0⟩, ?_⟩
      simp [hph]
    omega

/-- C6: every chunk payload read from a channel is delivered to exactly one
callback invocation, exactly once, and the index passed to the callback is
the chunk's zero-based emission order: work item `i` of invocation `v`
always carries the `i`-th payload of `v`'s stream, each `startTask v i`
occurs at most once in any schedule, and once the invocation has returned,
each of its `N` chunk indices saw exactly one callback start. -/
theorem claim_C6 (cA cB : List Nat) (tr : List Label) (s : SysState) (v : WhichInv)
    (hr : Exec cA cB tr s) :
    (∀ (i : Nat) (t : TaskState), (s.get v).tasks[i]? = some t →
        (chunksOf cA cB v)[i]? = some t.payload)
    ∧ (∀ i : Nat, tr.count (Label.startTask v i) ≤ 1)
    ∧ ((s.get v).phase = .done →
        ∀ i : Nat, i < (chunksOf cA cB v).length → tr.count (Label.startTask v i) = 1) := by
  have hinv := sysInv_run hr
  have hstream : (s.get v).tasks.map TaskState.payload ++ (s.get v).phase.heldChunk
      ++ (s.get v).remaining = chunksOf cA cB v := by
    cases v
    · exact hinv.locA.2.1
    · exact hinv.locB.2.1
  refine ⟨?_, ?_, ?_⟩
  · intro i t hget
    have hlt := (List.getElem?_eq_some.mp hget).1
    have : (chunksOf cA cB v)[i]?
        = ((s.get v).tasks.map TaskState.payload)[i]? := by
      rw [← hstream, List.append_assoc, List.getElem?_append, if_pos (by simpa using hlt)]
    rw [this, List.getElem?_map, hget]
    rfl
  · intro i
    refine startCount_le_one hr ?_
    intro t0 ht0
    cases v <;> simp [initState] at ht0
  · intro hdone i hiN
    -- at `done` the whole stream is queued and every work item has started
    have hrem : (s.get v).remaining = [] := by
      cases v
      · exact hinv.locA.2.2.2 (by rw [show s.invA.phase = CoordPhase.done from hdone]; rfl)
      · exact hinv.locB.2.2.2 (by rw [show s.invB.phase = CoordPhase.done from hdone]; rfl)
    have hheld : (s.get v).phase.heldChunk = [] := by rw [hdone]; rfl
    rw [hrem, hheld] at hstream
    simp only [List.append_nil] at hstream
    have hlen : i < (s.get v).tasks.length := by
      have h2 : (s.get v).tasks.length = (chunksOf cA cB v).length := by
        simpa using congrArg List.length hstream
      omega
    have hgeti : (s.get v).tasks[i]? = some ((s.get v).tasks[i]) :=
      List.getElem?_eq_getElem hlen
    -- the invocation-local semaphore is fully drained, so item i released it,
    -- hence its callback started
    have hloc : (s.get v).localHeldTasks = 0 := by
      have ha : (s.get v).localSem + (s.get v).phase.localHold + (s.get v).localHeldTasks
          + (s.get v).phase.drains = 2 := by
        cases v
        · exact hinv.locA.1
        · exact hinv.locB.1
      rw [hdone] at ha
      simp only [CoordPhase.localHold, CoordPhase.drains] at ha
      omega
    have hstarted : ((s.get v).tasks[i]).phase.isStarted = true := by
      have := List.countP_eq_zero.mp
        (by simpa [InvState.localHeldTasks, InvState.countPh] using hloc)
        _ (List.getElem_mem hlen)
      cases hp : ((s.get v).tasks[i]).phase <;> simp_all
    have hmem : Label.startTask v i ∈ tr := by
      refine start_mem_run hr ?_ hgeti hstarted
      intro t0 ht0
      cases v <;> simp [initState] at ht0
    have hle : tr.count (Label.startTask v i) ≤ 1 := by
      refine startCount_le_one hr ?_
      intro t0 ht0
      cases v <;> simp [initState] at ht0
    have hge : 0 < tr.count (Label.startTask v i) := List.count_pos_iff_mem.mpr hmem
    omega

/-- C7: on an empty channel, `Process` is not an error: the work-item list
stays empty, no step ever touches the overlap (count) or order gates, the
count and order semaphores keep their constructed values, the two final
drain acquires find the fresh invocation-local semaphore at 2 and then 1
(they succeed at once), and after `Process` returns the lane gate is back
at 1 — no gate is left in an acquired state. -/
theorem claim_C7 (cB : List Nat) (tr : List Label) (s : SysState)
    (hr : Exec [] cB tr s) (honly : ∀ l ∈ tr, l.who = .A) :
    s.invA.tasks = [] ∧ s.countSem = 2 ∧ s.orderSem = 1
    ∧ (s.invA.phase = .drain0 → s.invA.localSem = 2)
    ∧ (s.invA.phase = .drain1 → s.invA.localSem = 1)
    ∧ (s.invA.phase = .done → s.laneSem = 1)
    ∧ (∀ j : Nat, tr[j]? ≠ some (.acquireCount .A) ∧ tr[j]? ≠ some (.acquireOrder .A)
        ∧ ∀ i : Nat, tr[j]? ≠ some (.startTask .A i)) := by
  have hinv := sysInv_run hr
  obtain ⟨a1, a2, a3, a4⟩ := hinv.locA
  have hB : s.get .B = (initState [] cB).get .B := by
    refine run_other_inv hr ?_
    intro l hl
    rw [honly l hl]
    exact fun h => WhichInv.noConfusion h
  have hBval : s.invB = { phase := .notStarted, remaining := cB, tasks := [], localSem := 2 } :=
    hB
  have htasksA : s.invA.tasks = [] := by
    rcases List.append_eq_nil.mp (List.append_eq_nil.mp a2).1 with ⟨h, _⟩
    exact List.map_eq_nil.mp h
  have hheldA : s.invA.phase.heldChunk = [] :=
    (List.append_eq_nil.mp (List.append_eq_nil.mp a2).1).2
  have hcountHold : s.invA.phase.countHold = 0 := by
    cases hp : s.invA.phase <;> simp_all
  have houtA : s.invA.outstanding = 0 := by
    simp [InvState.outstanding, InvState.countPh, htasksA]
  have hunsA : s.invA.unsignaled = 0 := by
    simp [InvState.unsignaled, InvState.countPh, htasksA]
  have hlocA : s.invA.localHeldTasks = 0 := by
    simp [InvState.localHeldTasks, InvState.countPh, htasksA]
  have hBphase : s.invB.phase = .notStarted := by rw [hBval]
  have hBtasks : s.invB.tasks = [] := by rw [hBval]
  have hBhold : s.invB.phase.countHold = 0 := by rw [hBphase]; rfl
  have hBlane : s.invB.phase.laneHeld = 0 := by rw [hBphase]; rfl
  have hBout : s.invB.outstanding = 0 := by
    simp [InvState.outstanding, InvState.countPh, hBtasks]
  have hBuns : s.invB.unsignaled = 0 := by
    simp [InvState.unsignaled, InvState.countPh, hBtasks]
  have hc := hinv.countEq
  have ho := hinv.orderEq
  have hl := hinv.laneEq
  rw [hcountHold, houtA, hBhold, hBout] at hc
  rw [hunsA, hBuns] at ho
  rw [hBlane] at hl
  refine ⟨htasksA, by omega, by omega, ?_, ?_, ?_, ?_⟩
  · intro hph
    rw [hph] at a1
    simp only [CoordPhase.localHold, CoordPhase.drains] at a1
    omega
  · intro hph
    rw [hph] at a1
    simp only [CoordPhase.localHold, CoordPhase.drains] at a1
    omega
  · intro hph
    have hAlane : s.invA.phase.laneHeld = 0 := by rw [hph]; rfl
    rw [hAlane] at hl
    omega
  · intro j
    refine ⟨?_, ?_, ?_⟩
    · intro hj
      obtain ⟨s1, s2, h1, h2, _⟩ := run_get_step hr hj
      obtain ⟨p, hph, _, _⟩ := tryAcquireCount_some h2
      have hinv1 := sysInv_run h1
      have a2' := hinv1.locA.2.1
      have hph' : s1.invA.phase = CoordPhase.acqCount p := hph
      rw [hph'] at a2'
      simp at a2'
    · intro hj
      obtain ⟨s1, s2, h1, h2, _⟩ := run_get_step hr hj
      obtain ⟨p, hph, _, _⟩ := tryAcquireOrder_some h2
      have hinv1 := sysInv_run h1
      have a2' := hinv1.locA.2.1
      have hph' : s1.invA.phase = CoordPhase.acqOrder p := hph
      rw [hph'] at a2'
      simp at a2'
    · intro i hj
      obtain ⟨s1, s2, h1, h2, _⟩ := run_get_step hr hj
      obtain ⟨t, hget, _, _⟩ := stepTask_some h2
      have hinv1 := sysInv_run h1
      have a2' := hinv1.locA.2.1
      have htasks1 : s1.invA.tasks = [] := by
        rcases List.append_eq_nil.mp (List.append_eq_nil.mp a2').1 with ⟨h, _⟩
        exact List.map_eq_nil.mp h
      have hget' : s1.invA.tasks[i]? = some t := hget
      rw [htasks1] at hget'
      simp at hget'

/-- C8: the `log_tag` argument never affects control flow, gate operations,
chunk delivery or ordering — projecting the logging semantics onto the state
ignores the tags entirely (the same schedules are valid and reach the same
states for any tags), and with empty tags no diagnostic line is ever
emitted. -/
theorem claim_C8 (tagA tagB : String) (s : SysState) (out : List String)
    (tr : List Label) :
    (runLog tagA tagB (s, out) tr).map Prod.fst = run s tr
    ∧ runLog "" "" (s, out) tr = (run s tr).map (fun s' => (s', out)) := by
  induction tr generalizing s out with
  | nil => exact ⟨rfl, rfl⟩
  | cons l ls ih =>
    have hemit : emitLog "" "" s l = [] := by
      unfold emitLog
      cases hw : l.who <;> simp
    cases hst : stepFn s l with
    | none =>
      constructor
      · simp [runLog, run, hst]
      · simp [runLog, run, hst]
    | some s' =>
      constructor
      · simp only [runLog, run, hst]
        exact (ih s' (out ++ emitLog tagA tagB s l)).1
      · simp only [runLog, run, hst, hemit, List.append_nil]
        exact (ih s' out).2

/-- C9: once both invocations are quiescent (each has either returned from
`Process` or was never invoked) and every submitted work item has completed
— which entails that each callback signalled exactly once and returned
normally — the three instance-wide gates are back at their constructed
values: count semaphore 2, order semaphore 1, lane semaphore 1.  Every
acquire performed in `QueueChunk` and `ProcessAllChunksForLane` was matched
by exactly one release.  (The spec states this restoration only for the
zero-chunk case; it holds for every stream length.) -/
theorem claim_C9 (cA cB : List Nat) (tr : List Label) (s : SysState)
    (hr : Exec cA cB tr s)
    (hA : s.invA.phase = .done ∨ s.invA.phase = .notStarted)
    (hB : s.invB.phase = .done ∨ s.invB.phase = .notStarted)
    (htA : ∀ t ∈ s.invA.tasks, t.phase = .finished)
    (htB : ∀ t ∈ s.invB.tasks, t.phase = .finished) :
    s.countSem = 2 ∧ s.orderSem = 1 ∧ s.laneSem = 1 := by
  have hinv := sysInv_run hr
  have houtA : s.invA.outstanding = 0 :=
    List.countP_eq_zero.mpr (fun t ht => by simp [htA t ht])
  have houtB : s.invB.outstanding = 0 :=
    List.countP_eq_zero.mpr (fun t ht => by simp [htB t ht])
  have hunsA : s.invA.unsignaled = 0 :=
    List.countP_eq_zero.mpr (fun t ht => by simp [htA t ht])
  have hunsB : s.invB.unsignaled = 0 :=
    List.countP_eq_zero.mpr (fun t ht => by simp [htB t ht])
  have hholdA : s.invA.phase.countHold = 0 := by rcases hA with h | h <;> rw [h] <;> rfl
  have hholdB : s.invB.phase.countHold = 0 := by rcases hB with h | h <;> rw [h] <;> rfl
  have hlaneA : s.invA.phase.laneHeld = 0 := by rcases hA with h | h <;> rw [h] <;> rfl
  have hlaneB : s.invB.phase.laneHeld = 0 := by rcases hB with h | h <;> rw [h] <;> rfl
  have hc := hinv.countEq
  have ho := hinv.orderEq
  have hl := hinv.laneEq
  rw [houtA, houtB, hholdA, hholdB] at hc
  rw [hunsA, hunsB] at ho
  rw [hlaneA, hlaneB] at hl
  exact ⟨by omega, by omega, by omega⟩

/-- C10: if the callback of some work item exits abnormally (raises instead
of returning), the two releases that follow it in the work-item body never
execute; from then on, in every reachable future state, that invocation's
`Process` can never complete its final drain (its coordinator never reaches
`done`) and the instance-wide overlap capacity is permanently reduced: the
count semaphore never exceeds 1 again.  The coordinator performs no release
on this error path. -/
theorem claim_C10 (cA cB : List Nat) (tr : List Label) (s : SysState) (v : WhichInv)
    (i : Nat) (t : TaskState) (hr : Exec cA cB tr s)
    (hget : (s.get v).tasks[i]? = some t) (hf : t.phase.isFaulted = true) :
    ∀ (tr' : List Label) (s' : SysState), run s tr' = some s' →
      (s'.get v).phase ≠ .done ∧ s'.countSem ≤ 1 := by
  intro tr' s' hr'
  have hinv' : SysInv cA cB s' := sysInv_run_from tr' s s' (sysInv_run hr) hr'
  obtain ⟨t', hget', hf'⟩ := task_persist_run hr' hget hf
    (fun _ _ h hp => transStep_faulted h hp)
  have hmem : t' ∈ (s'.get v).tasks := List.mem_iff_getElem?.mpr ⟨i, hget'⟩
  have hloc : 0 < (s'.get v).localHeldTasks := by
    refine List.countP_pos.mpr ⟨t', hmem, ?_⟩
    cases hp : t'.phase <;> simp_all
  have hout : 0 < (s'.get v).outstanding := by
    refine List.countP_pos.mpr ⟨t', hmem, ?_⟩
    cases hp : t'.phase <;> simp_all
  constructor
  · intro hdone
    cases v
    · have a1 := hinv'.locA.1
      have hdone' : s'.invA.phase = CoordPhase.done := hdone
      rw [hdone'] at a1
      simp only [CoordPhase.localHold, CoordPhase.drains] at a1
      have hloc' : 0 < s'.invA.localHeldTasks := hloc
      omega
    · have b1 := hinv'.locB.1
      have hdone' : s'.invB.phase = CoordPhase.done := hdone
      rw [hdone'] at b1
      simp only [CoordPhase.localHold, CoordPhase.drains] at b1
      have hloc' : 0 < s'.invB.localHeldTasks := hloc
      omega
  · have hc := hinv'.countEq
    cases v
    · have hout' : 0 < s'.invA.outstanding := hout
      omega
    · have hout' : 0 < s'.invB.outstanding := hout
      omega

/-! ### Witnesses: the claim theorems applied at concrete schedules -/

/-- Witness for C1: in the concrete two-chunk schedule `trFull2`, the start
of chunk 1's callback (position 12) is preceded by chunk 0's order-semaphore
release. -/
theorem claim_C1_witness :
    ∃ k, k < 12 ∧ trFull2[k]? = some (Label.signalOrder .A 0) :=
  claim_C1 [10, 20] [] trFull2 sFull2 .A 0 12 (by decide) (by decide)

/-- Witness for C2 at the state reached by `trC5`, where one callback of
each invocation is mid-execution. -/
theorem claim_C2_witness :
    sC5.invA.midExecCount + sC5.invB.midExecCount ≤ 2 :=
  claim_C2 [10, 20, 30] [40, 50] trC5 sC5 (by decide)

/-- Witness for C3 at the completed run `trFull2` over the stream
`[10, 20]`. -/
theorem claim_C3_witness :
    sFull2.invA.tasks.map TaskState.payload = [10, 20] ∧
      sFull2.invA.tasks.length = ([10, 20] : List Nat).length ∧
      ∀ t ∈ sFull2.invA.tasks, t.phase.callbackDone = true :=
  claim_C3 [10, 20] [] trFull2 sFull2 (by decide) (by decide)

/-- Witness for C4 at the state reached by `trC5`, where b0 has just
started. -/
theorem claim_C4_witness : sC5.invA.outstanding ≤ 1 :=
  claim_C4 [10, 20, 30] [40, 50] trC5 sC5 { payload := 40, phase := .runningPre }
    (by decide) (by decide) (by decide)

/-- Witness for the amended C5 at the state reached by `trC5`: all three of
A's chunks are queued and at most one is outstanding when b0 starts. -/
theorem claim_C5_amended_witness :
    sC5.invA.tasks.map TaskState.payload = [10, 20, 30] ∧ sC5.invA.outstanding ≤ 1 :=
  claim_C5_amended [10, 20, 30] [40, 50] trC5 sC5 { payload := 40, phase := .runningPre }
    (by decide) (by decide) (by decide) (by decide)

/-- Witness for C6: in the completed run `trFull2` each of the two chunk
indices saw exactly one callback start. -/
theorem claim_C6_witness :
    trFull2.count (Label.startTask .A 0) = 1 ∧ trFull2.count (Label.startTask .A 1) = 1 := by
  have h := claim_C6 [10, 20] [] trFull2 sFull2 .A (by decide)
  have h3 := h.2.2 (by decide)
  exact ⟨h3 0 (by decide), h3 1 (by decide)⟩

/-- Witness for C7 at the completed empty-stream run `trEmpty`: no work
item was created and every instance gate is back at its constructed
value. -/
theorem claim_C7_witness :
    sEmpty.invA.tasks = [] ∧ sEmpty.countSem = 2 ∧ sEmpty.orderSem = 1
      ∧ sEmpty.laneSem = 1 := by
  have h := claim_C7 [5] trEmpty sEmpty (by decide) (by decide)
  exact ⟨h.1, h.2.1, h.2.2.1, h.2.2.2.2.2.1 (by decide)⟩

/-- Witness for C9 at the completed run `trFull1`: the three gates are back
at 2, 1, 1. -/
theorem claim_C9_witness :
    sFull1.countSem = 2 ∧ sFull1.orderSem = 1 ∧ sFull1.laneSem = 1 :=
  claim_C9 [7] [] trFull1 sFull1 (by decide) (Or.inl (by decide)) (Or.inr (by decide))
    (by decide) (by decide)

/-- Witness for C10: after the faulting run `trFault`, one further drain
acquire still leaves the coordinator short of `done` and the count
semaphore at 1. -/
theorem claim_C10_witness :
    (sFaultLater.get WhichInv.A).phase ≠ CoordPhase.done ∧ sFaultLater.countSem ≤ 1 := by
  have h := claim_C10 [9] [] trFault sFault .A 0 { payload := 9, phase := .faultedPre }
    (by decide) (by decide) (by decide)
  exact h [Label.drainAcquire .A] sFaultLater (by decide)

end OverlapProc
